import Mathlib

/-!
Verification of the `ent` typed property-graph store.

This file gives a shallow embedding, in Lean 4, of the core of the `ent`
server (a schema-validated graph store over an MVCC relational engine) and
proves or refutes the frozen specification claims against it.

Embedded components and their sources:
* `PgSnapshot`, `Revision`, `ConsistencyMode` — `server/src/db/transaction.rs`
* zookie codec (JSON + URL-safe base64)      — `server/src/db/transaction.rs`
* `GraphRepository` operations as a state machine — `server/src/db/graph.rs`
* service handlers (auth gate, ownership gate, error mapping)
                                              — `server/src/server/graph_server.rs`,
                                                `server/src/server/schema_server.rs`,
                                                `server/src/auth/mod.rs`
* wire-value / JSON conversion                — `server/src/server/util.rs`

Machine integers are embedded as `Nat` with explicit bounds where overflow
matters.  Fallible code returns `Except` / `Option`.  Rust `Vec::binary_search`
is embedded through its documented contract on sorted slices (`Ok` exactly on
membership, `remove` of the found index = first-occurrence erase); every
theorem that touches it carries the sortedness hypothesis, so the contract
view coincides with the concrete algorithm.
-/

namespace Ent

/-- Sentinel transaction id standing for "not deleted": `Xid8::max()`,
that is `2^63 - 1` (`server/src/db/xid.rs`). -/
def MAXTXID : Nat := 9223372036854775807

/-- Upper bound of unsigned 64-bit integers, used by integer parsing. -/
def U64SIZE : Nat := 18446744073709551616

/-- Postgres snapshot triple, from `PgSnapshot` in `server/src/db/transaction.rs`.
Fields are the unsigned 64-bit values `xmin`, `xmax` and the in-progress list. -/
structure PgSnapshot where
  xmin : Nat
  xmax : Nat
  xip_list : List Nat
deriving DecidableEq, Repr

/-- Well-formedness of a snapshot as stated by the spec (section 3): the
in-progress list is sorted, duplicate free (strict sortedness gives both) and
contained in `[xmin, xmax)`, and `xmin ≤ xmax`. -/
def PgSnapshot.wf (s : PgSnapshot) : Prop :=
  s.xmin ≤ s.xmax ∧ s.xip_list.Sorted (· < ·) ∧
    ∀ x ∈ s.xip_list, s.xmin ≤ x ∧ x < s.xmax

instance (s : PgSnapshot) : Decidable s.wf := by
  unfold PgSnapshot.wf
  infer_instance

/-- Visibility of a transaction id against a snapshot
(`PgSnapshot::is_visible`).  The Rust code tests
`self.xip_list.binary_search(&xid).is_ok()`; on the sorted lists all callers
supply, that is exactly list membership. -/
def PgSnapshot.is_visible (s : PgSnapshot) (xid : Nat) : Bool :=
  if xid < s.xmin then true
  else if s.xmax ≤ xid then false
  else !(s.xip_list.contains xid)

/-- Pure completion of a transaction id (`PgSnapshot::mark_complete`):
first advance `xmax` to `xid + 1` when `xid ≥ xmax`, then remove `xid` from
the in-progress list (binary search + `remove`, i.e. first-occurrence erase),
then collapse `xmin` to the updated `xmax` when the list became empty. -/
def PgSnapshot.mark_complete (s : PgSnapshot) (xid : Nat) : PgSnapshot :=
  let xmax1 := if s.xmax ≤ xid then xid + 1 else s.xmax
  let xip1 := s.xip_list.erase xid
  let xmin1 := if xip1.isEmpty then xmax1 else s.xmin
  ⟨xmin1, xmax1, xip1⟩

/-- Rust `str::split(sep)` on a single-character separator, over the
character list of the string: adjacent separators and separators at either
end produce empty parts, and the empty string yields one empty part. -/
def splitOnChar (sep : Char) : List Char → List (List Char)
  | [] => [[]]
  | c :: rest =>
    match splitOnChar sep rest with
    | [] => [[]]
    | t :: ts => if c = sep then [] :: t :: ts else (c :: t) :: ts

/-- Rust `u64::from_str`: an optional leading plus sign, then one or more
ASCII digits, and the value must fit in unsigned 64 bits. -/
def parseU64 (s : List Char) : Option Nat :=
  let t := match s with
    | '+' :: r => r
    | _ => s
  if t.isEmpty then none
  else if t.all (fun c => c.isDigit) then
    let n := t.foldl (fun a c => 10 * a + (c.toNat - 48)) 0
    if n < U64SIZE then some n else none
  else none

/-- Sequenced parsing of a list of integer fields, as Rust
`map(parse).collect::<Result<Vec<_>, _>>()`: the first failure aborts. -/
def parseU64List : List (List Char) → Option (List Nat)
  | [] => some []
  | p :: ps =>
    match parseU64 p, parseU64List ps with
    | some v, some vs => some (v :: vs)
    | _, _ => none

/-- Snapshot parsing, from the `FromStr` instance of `PgSnapshot`
(`server/src/db/transaction.rs`).  Split on colons; demand exactly three
parts; parse `xmin` and `xmax` as unsigned 64-bit integers; an empty third
part is the empty in-progress list, otherwise split it on commas and parse
every element.  The error strings mirror the `SnapshotError` messages.
Strings are embedded as their character lists. -/
def PgSnapshot.from_str (s : List Char) : Except String PgSnapshot :=
  match splitOnChar ':' s with
  | [p0, p1, p2] =>
    match parseU64 p0 with
    | none => .error "Invalid xmin"
    | some xmin =>
      match parseU64 p1 with
      | none => .error "Invalid xmax"
      | some xmax =>
        if p2.isEmpty then .ok ⟨xmin, xmax, []⟩
        else
          match parseU64List (splitOnChar ',' p2) with
          | none => .error "Invalid xip value"
          | some xips => .ok ⟨xmin, xmax, xips⟩
  | _ => .error "Invalid snapshot format"

/-! Wire-value / JSON conversion (`server/src/server/util.rs`).

Doubles are embedded as an inductive over exact rationals plus the three
non-finite values.  Every value of a 64-bit binary float is an exact
rational, and on that domain the operations the code performs (`fract`,
comparisons against constants, saturating cast to `i64`) are exact, so the
rational model computes precisely what the Rust code computes.  Two
floating-point facts are baked into constants: `i64::MAX as f64` rounds up
to `2^63`, while `i64::MIN as f64` is exactly `-2^63`. -/

/-- Model of a Rust `f64`: an exact rational for the finite values, plus
NaN and the two infinities. -/
inductive RDouble where
  | finite (q : ℚ)
  | nan
  | posInf
  | negInf
deriving DecidableEq

/-- Model of `prost_types::Value`: the tagged wire value.  `kindNone`
stands for a value whose optional `kind` field is absent. -/
inductive ProstValue where
  | kindNone
  | nullValue
  | boolValue (b : Bool)
  | numberValue (d : RDouble)
  | stringValue (s : String)
  | listValue (vs : List ProstValue)
  | structValue (fs : List (String × ProstValue))

/-- Model of `serde_json::Value`; integer and floating numbers are kept
apart, mirroring the internal representation of `serde_json::Number`. -/
inductive JsonValue where
  | null
  | bool (b : Bool)
  | intNum (n : Int)
  | floatNum (q : ℚ)
  | str (s : String)
  | arr (vs : List JsonValue)
  | obj (fs : List (String × JsonValue))
deriving BEq

/-- Lower bound of `i64`, that is `-2^63`. -/
def I64MIN : Int := -9223372036854775808

/-- Upper bound of `i64`, that is `2^63 - 1`. -/
def I64MAX : Int := 9223372036854775807

/-- Truncation toward zero, as the first step of a Rust float-to-int cast. -/
def ratTrunc (q : ℚ) : Int := if q < 0 then ⌈q⌉ else ⌊q⌋

/-- Saturating cast `f64 as i64`: truncate toward zero, clamping to the
`i64` range. -/
def i64SatCast (q : ℚ) : Int :=
  if ratTrunc q < I64MIN then I64MIN
  else if I64MAX < ratTrunc q then I64MAX
  else ratTrunc q

/-- Condition of the integer branch of `prost_value_to_json_value`:
`n.fract() == 0.0 && n <= i64::MAX as f64 && n >= i64::MIN as f64`.  A
finite double has zero fractional part exactly when its rational value has
denominator one; the two cast constants are `2^63` and `-2^63`. -/
def intBranch (q : ℚ) : Prop :=
  q.den = 1 ∧ q ≤ (9223372036854775808 : ℚ) ∧ (-9223372036854775808 : ℚ) ≤ q

instance (q : ℚ) : Decidable (intBranch q) := by
  unfold intBranch
  infer_instance

mutual

/-- Conversion of a wire value to JSON (`prost_value_to_json_value` in
`server/src/server/util.rs`).  For a number: the integer branch applies
when the fractional part is zero and the value passes the (rounded)
`i64` range comparisons, and converts with a saturating cast; otherwise
`serde_json::Number::from_f64` succeeds exactly on finite doubles and
fails (yielding JSON null) on NaN and the infinities. -/
def prost_value_to_json_value : ProstValue → JsonValue
  | .kindNone => .null
  | .nullValue => .null
  | .boolValue b => .bool b
  | .numberValue (.finite q) =>
    if intBranch q then .intNum (i64SatCast q) else .floatNum q
  | .numberValue .nan => .null
  | .numberValue .posInf => .null
  | .numberValue .negInf => .null
  | .stringValue s => .str s
  | .listValue vs => .arr (prostListToJson vs)
  | .structValue fs => .obj (prostFieldsToJson fs)

/-- Elementwise conversion of a wire list (`ListValue`). -/
def prostListToJson : List ProstValue → List JsonValue
  | [] => []
  | v :: vs => prost_value_to_json_value v :: prostListToJson vs

/-- Fieldwise conversion of a wire struct (`StructValue`). -/
def prostFieldsToJson : List (String × ProstValue) → List (String × JsonValue)
  | [] => []
  | (k, v) :: fs => (k, prost_value_to_json_value v) :: prostFieldsToJson fs

end

/-- Numeric value carried by a JSON number, if any. -/
def jsonNumVal : JsonValue → Option ℚ
  | .intNum n => some ((n : ℚ))
  | .floatNum q => some q
  | _ => none

/-! Zookie codec (`Revision::to_zookie` / `Revision::from_zookie` in
`server/src/db/transaction.rs`).

The Rust code serializes a `Revision` with `serde_json::to_vec` (compact
JSON, struct fields in declaration order) and then encodes the bytes with
the URL-safe base64 engine (padded encode, canonical-padding decode that
rejects non-zero trailing bits).  Bytes are embedded as naturals below 256
and the token as a character list.  The byte-level JSON reader is embedded
for the canonical shape the serializer emits; a byte string it rejects
makes `from_zookie` fail exactly like a serde parse failure does. -/

/-- Internal revision representation: a snapshot and the optional id of
the producing write transaction. -/
structure Revision where
  snapshot : PgSnapshot
  optional_xid : Option Nat
deriving DecidableEq, Repr

/-- Wire token carrying an encoded revision (`Zookie` message); the string
payload is embedded as its character list. -/
structure Zookie where
  value : List Char
deriving DecidableEq, Repr

/-- Decode failure of a zookie, mirroring the two `anyhow` messages
`Invalid zookie encoding` (base64 failure) and `Invalid zookie format`
(inner parse failure). -/
inductive ZookieError where
  | invalidEncoding
  | invalidFormat
deriving DecidableEq, Repr

/-- Character of the URL-safe base64 alphabet for a sextet. -/
def b64Char (s : Nat) : Char :=
  if s < 26 then Char.ofNat (65 + s)
  else if s < 52 then Char.ofNat (97 + (s - 26))
  else if s < 62 then Char.ofNat (48 + (s - 52))
  else if s = 62 then '-'
  else '_'

/-- Sextet of a URL-safe base64 character, `none` outside the alphabet. -/
def b64Val (c : Char) : Option Nat :=
  let n := c.toNat
  if 65 ≤ n ∧ n ≤ 90 then some (n - 65)
  else if 97 ≤ n ∧ n ≤ 122 then some (26 + (n - 97))
  else if 48 ≤ n ∧ n ≤ 57 then some (52 + (n - 48))
  else if n = 45 then some 62
  else if n = 95 then some 63
  else none

/-- Padded URL-safe base64 encoding of a byte list. -/
def b64encode : List Nat → List Char
  | [] => []
  | [a] => [b64Char (a / 4), b64Char ((a % 4) * 16), '=', '=']
  | [a, b] => [b64Char (a / 4), b64Char ((a % 4) * 16 + b / 16), b64Char ((b % 16) * 4), '=']
  | a :: b :: c :: rest =>
    b64Char (a / 4) :: b64Char ((a % 4) * 16 + b / 16) ::
      b64Char ((b % 16) * 4 + c / 64) :: b64Char (c % 64) :: b64encode rest

/-- Strict URL-safe base64 decoding: blocks of four characters, canonical
padding only on the final block, non-zero trailing bits rejected. -/
def b64decode : List Char → Option (List Nat)
  | [] => some []
  | c1 :: c2 :: c3 :: c4 :: rest =>
    match b64Val c1, b64Val c2, b64Val c3, b64Val c4 with
    | some s1, some s2, some s3, some s4 =>
      (b64decode rest).map (fun bs =>
        (s1 * 4 + s2 / 16) :: ((s2 % 16) * 16 + s3 / 4) :: ((s3 % 4) * 64 + s4) :: bs)
    | some s1, some s2, some s3, none =>
      if c4 = '=' ∧ rest = [] ∧ s3 % 4 = 0 then
        some [s1 * 4 + s2 / 16, (s2 % 16) * 16 + s3 / 4]
      else none
    | some s1, some s2, none, none =>
      if c3 = '=' ∧ c4 = '=' ∧ rest = [] ∧ s2 % 16 = 0 then
        some [s1 * 4 + s2 / 16]
      else none
    | _, _, _, _ => none
  | _ => none

/-- ASCII bytes of a string literal. -/
def strBytes (s : String) : List Nat := s.data.map Char.toNat

/-- Decimal digits of a natural, most significant first (empty for zero). -/
def natDigits (n : Nat) : List Nat := (Nat.digits 10 n).reverse

/-- Decimal digit values of a natural, most significant first, with the
canonical single zero digit for zero. -/
def canonDigits (n : Nat) : List Nat :=
  if n = 0 then [0] else natDigits n

/-- ASCII bytes of the decimal rendering of a natural number. -/
def natToBytes (n : Nat) : List Nat :=
  (canonDigits n).map (· + 48)

/-- ASCII bytes of a comma-separated list of naturals. -/
def natListBytes : List Nat → List Nat
  | [] => []
  | [n] => natToBytes n
  | n :: rest => natToBytes n ++ 44 :: natListBytes rest

/-- Compact serde serialization of a snapshot:
an object with `xmin`, `xmax` and `xip_list` in declaration order. -/
def snapshotToBytes (s : PgSnapshot) : List Nat :=
  strBytes "\x7b\"xmin\":" ++ natToBytes s.xmin ++ strBytes ",\"xmax\":" ++
    natToBytes s.xmax ++ strBytes ",\"xip_list\":[" ++ natListBytes s.xip_list ++
    strBytes "]\x7d"

/-- Compact serde serialization of a revision (`serde_json::to_vec`):
the snapshot object then the optional xid (`null` when absent). -/
def revisionToBytes (r : Revision) : List Nat :=
  strBytes "\x7b\"snapshot\":" ++ snapshotToBytes r.snapshot ++
    strBytes ",\"optional_xid\":" ++
    (match r.optional_xid with
      | none => strBytes "null"
      | some x => natToBytes x) ++
    strBytes "\x7d"

/-- Head byte of a list is not an ASCII digit (trivially true when empty);
delimits the end of a decimal number in the byte reader. -/
def headNotDigit : List Nat → Prop
  | [] => True
  | b :: _ => b < 48 ∨ 57 < b

/-- Leading run of ASCII digits of a byte list, as digit values, together
with the remainder. -/
def takeDigits : List Nat → (List Nat × List Nat)
  | [] => ([], [])
  | b :: bs =>
    if 48 ≤ b ∧ b ≤ 57 then
      let p : List Nat × List Nat := takeDigits bs
      ((b - 48) :: p.1, p.2)
    else ([], b :: bs)

/-- Value of a most-significant-first digit list. -/
def digitsVal (ds : List Nat) : Nat := ds.foldl (fun a d => 10 * a + d) 0

/-- Read a decimal natural from the front of a byte list. -/
def parseNatBytes (bs : List Nat) : Option (Nat × List Nat) :=
  match takeDigits bs with
  | ([], _) => none
  | (ds, rest) => some (digitsVal ds, rest)

/-- Expect a literal byte sequence at the front, returning the remainder. -/
def expectBytes : List Nat → List Nat → Option (List Nat)
  | [], rest => some rest
  | _ :: _, [] => none
  | p :: ps, b :: rest => if b = p then expectBytes ps rest else none

/-- Rust `str::split` over bytes, used by the byte-level list reader. -/
def splitOnByte (sep : Nat) : List Nat → List (List Nat)
  | [] => [[]]
  | b :: rest =>
    match splitOnByte sep rest with
    | [] => [[]]
    | t :: ts => if b = sep then [] :: t :: ts else (b :: t) :: ts

/-- Read one comma-separated segment as a plain decimal natural. -/
def parsePlainNat (p : List Nat) : Option Nat :=
  if p ≠ [] ∧ p.all (fun b => 48 ≤ b && b ≤ 57) then
    some (digitsVal (p.map (· - 48)))
  else none

/-- Read every comma-separated segment as a natural. -/
def parseNatSegs : List (List Nat) → Option (List Nat)
  | [] => some []
  | p :: ps =>
    match parsePlainNat p, parseNatSegs ps with
    | some v, some vs => some (v :: vs)
    | _, _ => none

/-- Byte-level reader for the canonical JSON shape of a revision. -/
def parseRevision (bs : List Nat) : Option Revision :=
  (expectBytes (strBytes "\x7b\"snapshot\":\x7b\"xmin\":") bs).bind fun r1 =>
  (parseNatBytes r1).bind fun p1 =>
  (expectBytes (strBytes ",\"xmax\":") p1.2).bind fun r2 =>
  (parseNatBytes r2).bind fun p2 =>
  (expectBytes (strBytes ",\"xip_list\":[") p2.2).bind fun r3 =>
  let inner := r3.takeWhile (fun b => b ≠ 93)
  let r4 := r3.drop inner.length
  (if inner = [] then some [] else parseNatSegs (splitOnByte 44 inner)).bind fun xips =>
  (expectBytes (strBytes "]\x7d,\"optional_xid\":") r4).bind fun r5 =>
  (match expectBytes (strBytes "null") r5 with
    | some rr => some ((none : Option Nat), rr)
    | none => (parseNatBytes r5).map
        (fun (p : Nat × List Nat) => ((some p.1 : Option Nat), p.2))).bind fun po =>
  (expectBytes (strBytes "\x7d") po.2).bind fun r6 =>
  if r6 = [] then some ⟨⟨p1.1, p2.1, xips⟩, po.1⟩ else none

/-- Encoding of a revision as an opaque token (`Revision::to_zookie`):
URL-safe base64 of the compact JSON bytes. -/
def Revision.to_zookie (r : Revision) : Zookie :=
  ⟨b64encode (revisionToBytes r)⟩

/-- Decoding of a token (`Revision::from_zookie`): base64 failure yields
the encoding error, inner parse failure yields the format error. -/
def Revision.from_zookie (z : Zookie) : Except ZookieError Revision :=
  match b64decode z.value with
  | none => .error .invalidEncoding
  | some bytes =>
    match parseRevision bytes with
    | none => .error .invalidFormat
    | some r => .ok r

/-! Graph store (`server/src/db/graph.rs`) as a sequential state machine.

Tables become lists of rows; `BIGSERIAL` ids and `xid8` transaction ids
become naturals handed out from counters.  Metadata payloads are kept
abstract in a type parameter `M` (the code stores `serde_json::Value`;
none of the claims inspect the payload).  Opening a transaction is
embedded from the spec: the migration defining
`relation_tuple_transaction` and its snapshot default is not under `src/`,
and section 4.1 of the spec states that opening a transaction atomically
assigns the tid and takes the snapshot of the state visible at that
assignment.  In a sequential execution every earlier transaction has
committed and the statement snapshot predates the xid assignment of its
own insert, so the snapshot is `tid:tid:`.  Reads evaluate
`pg_current_xact_id()` at the next unassigned tid.  The missing
`Revision::snapshot_string` method (called by the repository but absent
from `src/`) is likewise modelled from the spec as the text rendering of
`rev.snapshot`, so the SQL `pg_snapshot_xmax($::text::pg_snapshot)`
becomes `rev.snapshot.xmax`. -/

/-- Consistency mode for queries (`ConsistencyMode` in
`server/src/db/transaction.rs`). -/
inductive ConsistencyMode where
  | full
  | atLeastAsFresh (rev : Revision)
  | exactlyAt (rev : Revision)
  | minimizeLatency

/-- Database-level failure; `rowNotFound` is the error `sqlx::fetch_one`
raises when no row matches. -/
inductive DbError where
  | rowNotFound
deriving DecidableEq

/-- Row of the `objects` table. -/
structure ObjRow where
  id : Nat
  typeName : String
  userId : String
  createdXid : Nat
  deletedXid : Nat
deriving DecidableEq, Repr

/-- Row of the `object_metadata_history` table. -/
structure MetaRow (M : Type) where
  objectId : Nat
  metadata : M
  createdXid : Nat
  deletedXid : Nat
deriving DecidableEq, Repr

/-- Row of the `triples` table. -/
structure EdgeRow (M : Type) where
  id : Nat
  fromType : String
  fromId : Nat
  relation : String
  toType : String
  toId : Nat
  metadata : M
  userId : String
  createdXid : Nat
  deletedXid : Nat
deriving DecidableEq, Repr

/-- The database state: id and xid counters plus the three graph tables. -/
structure DBState (M : Type) where
  nextXid : Nat
  nextObjectId : Nat
  nextEdgeId : Nat
  objects : List ObjRow
  metadataHistory : List (MetaRow M)
  triples : List (EdgeRow M)
deriving DecidableEq, Repr

/-- Result row of a repository object read. -/
structure ObjectWithMetadata (M : Type) where
  id : Nat
  type_name : String
  metadata : M
deriving DecidableEq, Repr

/-- Visibility predicate a row must pass under a consistency mode, with
`currentXid` the reading transaction id used by `Full`
(`pg_current_xact_id()`).  `Full`: `created_xid ≤ current ∧ deleted_xid >
current`.  `MinimizeLatency`: no predicate.  `AtLeastAsFresh` and
`ExactlyAt` share one arm in the source (graph.rs): both pin visibility to
`pg_snapshot_xmax` of the revision snapshot. -/
def modePredicate (mode : ConsistencyMode) (currentXid : Nat)
    (created deleted : Nat) : Bool :=
  match mode with
  | .full => decide (created ≤ currentXid) && decide (currentXid < deleted)
  | .minimizeLatency => true
  | .atLeastAsFresh rev =>
    decide (created ≤ rev.snapshot.xmax) && decide (rev.snapshot.xmax < deleted)
  | .exactlyAt rev =>
    decide (created ≤ rev.snapshot.xmax) && decide (rev.snapshot.xmax < deleted)

/-- Create an object (`GraphRepository::create_object`): open a
transaction, insert the object row owned by the caller with
`created_xid = tid`, `deleted_xid = MAX_TXID`, insert the initial
metadata version, commit, and return the object with its revision. -/
def create_object {M : Type} (userId : String) (typeName : String) (meta : M)
    (s : DBState M) : DBState M × ObjectWithMetadata M × Revision :=
  let t := s.nextXid
  let snap : PgSnapshot := ⟨t, t, []⟩
  let oid := s.nextObjectId
  ({ s with
      nextXid := t + 1,
      nextObjectId := oid + 1,
      objects := s.objects ++ [⟨oid, typeName, userId, t, MAXTXID⟩],
      metadataHistory := s.metadataHistory ++ [⟨oid, meta, t, MAXTXID⟩] },
   ⟨oid, typeName, meta⟩, ⟨snap, some t⟩)

/-- Create an edge (`GraphRepository::create_edge`): one transaction, one
row in `triples`; no referential check on the endpoints. -/
def create_edge {M : Type} (userId : String) (fromId : Nat) (fromType : String)
    (toId : Nat) (toType : String) (relation : String) (meta : M)
    (s : DBState M) : DBState M × EdgeRow M × Revision :=
  let t := s.nextXid
  let snap : PgSnapshot := ⟨t, t, []⟩
  let eid := s.nextEdgeId
  let row : EdgeRow M := ⟨eid, fromType, fromId, relation, toType, toId, meta, userId, t, MAXTXID⟩
  ({ s with
      nextXid := t + 1,
      nextEdgeId := eid + 1,
      triples := s.triples ++ [row] },
   row, ⟨snap, some t⟩)

/-- Update an object (`GraphRepository::update_object`): open a
transaction; close the metadata version that still has
`deleted_xid = MAX_TXID`; insert the new version; set `updated_at` and
`user_id` on the object row (`RETURNING` through `fetch_one`, which fails
when the object row is missing — the transaction then rolls back, having
consumed its xid). -/
def update_object {M : Type} (userId : String) (objectId : Nat) (meta : M)
    (s : DBState M) : DBState M × Except DbError (ObjectWithMetadata M × Revision) :=
  let t := s.nextXid
  let snap : PgSnapshot := ⟨t, t, []⟩
  let hist := (s.metadataHistory.map fun h =>
    if h.objectId = objectId ∧ h.deletedXid = MAXTXID then
      { h with deletedXid := t } else h) ++ [⟨objectId, meta, t, MAXTXID⟩]
  match s.objects.find? (fun o => o.id == objectId) with
  | none => ({ s with nextXid := t + 1 }, .error .rowNotFound)
  | some o =>
    ({ s with
        nextXid := t + 1,
        metadataHistory := hist,
        objects := s.objects.map fun p =>
          if p.id = objectId then { p with userId := userId } else p },
     .ok (⟨objectId, o.typeName, meta⟩, ⟨snap, some t⟩))

/-- Latest metadata version by `created_xid`
(`ORDER BY created_xid DESC LIMIT 1`). -/
def maxByCreated {M : Type} (l : List (MetaRow M)) : Option (MetaRow M) :=
  l.foldl (fun acc h =>
    match acc with
    | none => some h
    | some m => if h.createdXid > m.createdXid then some h else some m) none

/-- Read an object under a consistency mode
(`GraphRepository::get_object`): fetch the object row under the mode
predicate (`fetch_optional`); when present, fetch exactly one metadata
version under the same mode (`fetch_one`, whose missing-row failure
surfaces as a database error), except that `MinimizeLatency` takes the
most recently inserted version. -/
def get_object {M : Type} (s : DBState M) (objectId : Nat)
    (mode : ConsistencyMode) : Except DbError (Option (ObjectWithMetadata M)) :=
  match s.objects.find? (fun o =>
      o.id == objectId && modePredicate mode s.nextXid o.createdXid o.deletedXid) with
  | none => .ok none
  | some o =>
    match mode with
    | .minimizeLatency =>
      match maxByCreated (s.metadataHistory.filter (fun h => h.objectId == objectId)) with
      | none => .error .rowNotFound
      | some h => .ok (some ⟨o.id, o.typeName, h.metadata⟩)
    | _ =>
      match (s.metadataHistory.filter (fun h =>
          h.objectId == objectId &&
            modePredicate mode s.nextXid h.createdXid h.deletedXid)).head? with
      | none => .error .rowNotFound
      | some h => .ok (some ⟨o.id, o.typeName, h.metadata⟩)

/-- First matching edge (`GraphRepository::get_edge`, `LIMIT 1`). -/
def get_edge {M : Type} (s : DBState M) (fromId : Nat) (relation : String)
    (mode : ConsistencyMode) : Except DbError (Option (EdgeRow M)) :=
  .ok (s.triples.find? (fun e =>
    e.fromId == fromId && e.relation == relation &&
      modePredicate mode s.nextXid e.createdXid e.deletedXid))

/-- All matching edges (`GraphRepository::get_edges`). -/
def get_edges {M : Type} (s : DBState M) (fromId : Nat) (relation : String)
    (mode : ConsistencyMode) : Except DbError (List (EdgeRow M)) :=
  .ok (s.triples.filter (fun e =>
    e.fromId == fromId && e.relation == relation &&
      modePredicate mode s.nextXid e.createdXid e.deletedXid))

/-- Ownership check (`GraphRepository::check_object_ownership`): read the
owner with no MVCC filter through `fetch_one` — a missing object row is a
database error, not `false`. -/
def check_object_ownership {M : Type} (s : DBState M) (objectId : Nat)
    (userId : String) : Except DbError Bool :=
  match s.objects.find? (fun o => o.id == objectId) with
  | none => .error .rowNotFound
  | some o => .ok (o.userId == userId)

/-- Current committed snapshot of the engine in the sequential model: all
assigned xids have committed, the next one is `nextXid`. -/
def current_snapshot {M : Type} (s : DBState M) : PgSnapshot :=
  ⟨s.nextXid, s.nextXid, []⟩

/-! Service layer (`server/src/server/graph_server.rs`,
`server/src/server/schema_server.rs`, `server/src/auth/mod.rs`).

A request carries an optional `authorization` header string; the token
verifier is a function from token to optional principal (`None` for every
rejected token).  Schema validation is an oracle with the three outcomes
of `SchemaRepository::validate_object` (`Ok(true)`, `Ok(false)`, `Err`);
the schema registry itself is outside the claims under proof. -/

/-- Wire status of a reply, mirroring `tonic::Status` codes used by the
handlers. -/
inductive GStatus where
  | unauthenticated (msg : String)
  | permissionDenied (msg : String)
  | notFound (msg : String)
  | invalidArgument (msg : String)
  | internal (msg : String)
deriving DecidableEq, Repr

/-- Outcome of `SchemaRepository::validate_object`. -/
inductive ValidationResult where
  | valid
  | invalid
  | failure
deriving DecidableEq, Repr

/-- A token verifier: resolves a bearer token to a principal, or rejects. -/
def TokenVerifier : Type := String → Option String

/-- Principal resolution (`AuthenticatedRequest::user_id` in
`server/src/auth/mod.rs`): take the `authorization` header, strip an
optional `Bearer ` prefix, and run the verifier; a missing header or a
rejected token is `Unauthenticated`. -/
def user_id (verify : TokenVerifier) (authHeader : Option String) :
    Except GStatus String :=
  match authHeader with
  | none => .error (.unauthenticated "Missing authorization token")
  | some token =>
    let t := if token.startsWith "Bearer " then token.drop 7 else token
    match verify t with
    | none => .error (.unauthenticated "Invalid token")
    | some sub => .ok sub

/-- Wire `ConsistencyRequirement.requirement` choice. -/
inductive Requirement where
  | fullConsistency (b : Bool)
  | minimizeLatency (b : Bool)
  | atLeastAsFresh (z : Zookie)
  | exactlyAt (z : Zookie)

/-- Decoding of the optional consistency requirement
(`GraphServer::parse_consistency_requirement`): `FullConsistency(true)`
and `MinimizeLatency(true)` select their modes, zookie-carrying variants
decode the token (failure → `InvalidArgument`), anything else defaults to
`MinimizeLatency`. -/
def parse_consistency_requirement (req : Option Requirement) :
    Except GStatus ConsistencyMode :=
  match req with
  | some (.fullConsistency true) => .ok .full
  | some (.minimizeLatency true) => .ok .minimizeLatency
  | some (.atLeastAsFresh z) =>
    match Revision.from_zookie z with
    | .ok rev => .ok (.atLeastAsFresh rev)
    | .error _ => .error (.invalidArgument "Invalid zookie format")
  | some (.exactlyAt z) =>
    match Revision.from_zookie z with
    | .ok rev => .ok (.exactlyAt rev)
    | .error _ => .error (.invalidArgument "Invalid zookie format")
  | _ => .ok .minimizeLatency

/-- The `GetObject` handler (`GraphServer::get_object`): authenticate,
decode the consistency mode, check ownership (database failure →
`Internal`, mismatch → `PermissionDenied`), then read (absent →
`NotFound`, database failure → `Internal`). -/
def get_object_handler {M : Type} (verify : TokenVerifier) (s : DBState M)
    (authHeader : Option String) (objectId : Nat) (consistency : Option Requirement) :
    Except GStatus (ObjectWithMetadata M) :=
  match user_id verify authHeader with
  | .error e => .error e
  | .ok uid =>
    match parse_consistency_requirement consistency with
    | .error e => .error e
    | .ok mode =>
      match check_object_ownership s objectId uid with
      | .error _ => .error (.internal "Failed to check object ownership")
      | .ok false =>
        .error (.permissionDenied "You do not have permission to access this object")
      | .ok true =>
        match get_object s objectId mode with
        | .ok (some obj) => .ok obj
        | .ok none => .error (.notFound "Object not found")
        | .error _ => .error (.internal "Failed to get object")

/-- The `GetEdge` handler (`GraphServer::get_edge`): decode the mode,
fetch the first matching edge, then fetch the target object under the
same mode.  The authorization header and the verifier are never
consulted. -/
def get_edge_handler {M : Type} (verify : TokenVerifier) (s : DBState M)
    (authHeader : Option String) (objectId : Nat) (edgeType : String)
    (consistency : Option Requirement) : Except GStatus (ObjectWithMetadata M) :=
  match parse_consistency_requirement consistency with
  | .error e => .error e
  | .ok mode =>
    match get_edge s objectId edgeType mode with
    | .error _ => .error (.internal "Failed to get edge")
    | .ok none => .error (.notFound "Edge not found")
    | .ok (some edge) =>
      match get_object s edge.toId mode with
      | .ok (some obj) => .ok obj
      | .ok none => .error (.notFound "Target object not found")
      | .error _ => .error (.internal "Failed to get target object")

/-- Target collection loop of the `GetEdges` handler: missing targets are
skipped, a database failure aborts with `Internal`. -/
def collectTargets {M : Type} (s : DBState M) (mode : ConsistencyMode) :
    List (EdgeRow M) → Except GStatus (List (ObjectWithMetadata M))
  | [] => .ok []
  | e :: rest =>
    match get_object s e.toId mode with
    | .ok (some obj) =>
      match collectTargets s mode rest with
      | .ok objs => .ok (obj :: objs)
      | .error err => .error err
    | .ok none => collectTargets s mode rest
    | .error _ => .error (.internal "Failed to get target objects")

/-- The `GetEdges` handler (`GraphServer::get_edges`): no authentication;
list the edges, then fan out to the target objects under the same mode. -/
def get_edges_handler {M : Type} (verify : TokenVerifier) (s : DBState M)
    (authHeader : Option String) (objectId : Nat) (edgeType : String)
    (consistency : Option Requirement) :
    Except GStatus (List (ObjectWithMetadata M)) :=
  match parse_consistency_requirement consistency with
  | .error e => .error e
  | .ok mode =>
    match get_edges s objectId edgeType mode with
    | .error _ => .error (.internal "Failed to get edges")
    | .ok edges => collectTargets s mode edges

/-- The `CreateObject` handler (`GraphServer::create_object`):
authenticate, validate the metadata against the registered schema, then
create. -/
def create_object_handler {M : Type} (verify : TokenVerifier)
    (validate : String → M → ValidationResult) (s : DBState M)
    (authHeader : Option String) (typeName : String) (meta : M) :
    DBState M × Except GStatus (ObjectWithMetadata M × Zookie) :=
  match user_id verify authHeader with
  | .error e => (s, .error e)
  | .ok uid =>
    match validate typeName meta with
    | .invalid => (s, .error (.invalidArgument "Object does not match schema"))
    | .failure => (s, .error (.internal "Failed to validate object"))
    | .valid =>
      let r := create_object uid typeName meta s
      (r.1, .ok (r.2.1, r.2.2.to_zookie))

/-- The `UpdateObject` handler (`GraphServer::update_object`):
authenticate, check ownership, fetch the object under `Full` to learn its
type, validate the new metadata, then update. -/
def update_object_handler {M : Type} (verify : TokenVerifier)
    (validate : String → M → ValidationResult) (s : DBState M)
    (authHeader : Option String) (objectId : Nat) (meta : M) :
    DBState M × Except GStatus (ObjectWithMetadata M × Zookie) :=
  match user_id verify authHeader with
  | .error e => (s, .error e)
  | .ok uid =>
    match check_object_ownership s objectId uid with
    | .error _ => (s, .error (.internal "Failed to check object ownership"))
    | .ok false =>
      (s, .error (.permissionDenied "You do not have permission to access this object"))
    | .ok true =>
      match get_object s objectId .full with
      | .ok none => (s, .error (.notFound "Object not found"))
      | .error _ => (s, .error (.internal "Failed to get object"))
      | .ok (some existing) =>
        match validate existing.type_name meta with
        | .invalid => (s, .error (.invalidArgument "Object does not match schema"))
        | .failure => (s, .error (.internal "Failed to validate object"))
        | .valid =>
          match update_object uid objectId meta s with
          | (s1, .error _) => (s1, .error (.internal "Failed to update object"))
          | (s1, .ok (obj, rev)) => (s1, .ok (obj, rev.to_zookie))

/-- The `CreateEdge` handler (`GraphServer::create_edge`): authenticate,
then create the edge row (no schema validation, no endpoint check). -/
def create_edge_handler {M : Type} (verify : TokenVerifier) (s : DBState M)
    (authHeader : Option String) (fromId : Nat) (fromType : String) (toId : Nat)
    (toType : String) (relation : String) (meta : M) :
    DBState M × Except GStatus (EdgeRow M × Zookie) :=
  match user_id verify authHeader with
  | .error e => (s, .error e)
  | .ok uid =>
    let r := create_edge uid fromId fromType toId toType relation meta s
    (r.1, .ok (r.2.1, r.2.2.to_zookie))

/-- Valid type name: `^[a-zA-Z][a-zA-Z0-9_]*$`. -/
def validTypeName : List Char → Bool
  | [] => false
  | c :: rest =>
    (c.isAlpha) && rest.all (fun d => d.isAlpha || d.isDigit || d = '_')

/-- The `CreateSchema` handler (`SchemaServer::create_schema`): reject an
empty or ill-formed type name, then persist through the schema repository
(failure → `Internal`).  The authorization header and the verifier are
never consulted. -/
def create_schema_handler (repo : String → String → Except Unit Nat)
    (authHeader : Option String) (typeName schema : String) :
    Except GStatus Nat :=
  if typeName.isEmpty then .error (.invalidArgument "type_name is required")
  else if !(validTypeName typeName.data) then
    .error (.invalidArgument
      "type_name must start with a letter and contain only letters, numbers, and underscores")
  else
    match repo typeName schema with
    | .ok schemaId => .ok schemaId
    | .error _ => .error (.internal "Failed to create schema")

/-! Machinery for the claims about sequences of service operations. -/

/-- A mutating service call, with its own authorization header. -/
inductive ServiceOp (M : Type) where
  | createObject (authHeader : Option String) (typeName : String) (meta : M)
  | updateObject (authHeader : Option String) (objectId : Nat) (meta : M)
  | createEdge (authHeader : Option String) (fromId : Nat) (fromType : String)
      (toId : Nat) (toType : String) (relation : String) (meta : M)

/-- State after one service call (the reply is discarded). -/
def exec_op {M : Type} (verify : TokenVerifier)
    (validate : String → M → ValidationResult) (op : ServiceOp M)
    (s : DBState M) : DBState M :=
  match op with
  | .createObject a ty m => (create_object_handler verify validate s a ty m).1
  | .updateObject a oid m => (update_object_handler verify validate s a oid m).1
  | .createEdge a f ft t tt rel m => (create_edge_handler verify s a f ft t tt rel m).1

/-- State after a sequence of service calls. -/
def exec_ops {M : Type} (verify : TokenVerifier)
    (validate : String → M → ValidationResult) (ops : List (ServiceOp M))
    (s : DBState M) : DBState M :=
  ops.foldl (fun s op => exec_op verify validate op s) s

/-- Stored owner of an object, as the service reads it (first row of the
`objects` table with that id). -/
def ownerOf {M : Type} (s : DBState M) (objectId : Nat) : Option String :=
  (s.objects.find? (fun o => o.id == objectId)).map (fun o => o.userId)

/-- Repository-level updates of one object, each by some caller. -/
def apply_updates {M : Type} (objectId : Nat) (ups : List (String × M))
    (s : DBState M) : DBState M :=
  ups.foldl (fun s um => (update_object um.1 objectId um.2 s).1) s

/-- Metadata version chain of one object after a run of updates: the
version written at `t0` lives until the first update, each update at
`t0 + k` closes its predecessor, and the last version is open. -/
def chainRows {M : Type} (oid : Nat) : Nat → M → List (String × M) → List (MetaRow M)
  | t0, m0, [] => [⟨oid, m0, t0, MAXTXID⟩]
  | t0, m0, (_, m1) :: rest => ⟨oid, m0, t0, t0 + 1⟩ :: chainRows oid (t0 + 1) m1 rest

/-- Metadata value of the last write: the last update, or the creation
value when no update happened. -/
def lastMeta {M : Type} (m0 : M) (ups : List (String × M)) : M :=
  (ups.map Prod.snd).getLastD m0

/-! Helper lemmas about the wire-value conversion. -/

theorem prostListToJson_eq_map (vs : List ProstValue) :
    prostListToJson vs = vs.map prost_value_to_json_value := by
  induction vs with
  | nil => rfl
  | cons v vs ih => simp [prostListToJson, ih]

theorem prostFieldsToJson_eq_map (fs : List (String × ProstValue)) :
    prostFieldsToJson fs = fs.map (fun kv => (kv.1, prost_value_to_json_value kv.2)) := by
  induction fs with
  | nil => rfl
  | cons kv fs ih =>
    obtain ⟨k, v⟩ := kv
    simp [prostFieldsToJson, ih]

theorem ratTrunc_of_den_one (q : ℚ) (h : q.den = 1) : ratTrunc q = q.num := by
  have hq : ((q.num : ℚ)) = q := by
    rw [← Rat.den_eq_one_iff]
    exact h
  unfold ratTrunc
  split_ifs with hneg
  · conv_lhs => rw [← hq]
    exact Int.ceil_intCast q.num
  · conv_lhs => rw [← hq]
    exact Int.floor_intCast q.num

theorem cast_I64MIN : ((I64MIN : ℚ)) = -9223372036854775808 := by
  norm_num [I64MIN]

theorem cast_I64MAX : ((I64MAX : ℚ)) = 9223372036854775807 := by
  norm_num [I64MAX]

/-- C9: conversion of wire numbers to JSON.  Integer-valued doubles inside
the `i64` range become JSON integers of the same value; NaN and the two
infinities become JSON null; every other double is preserved within a
relative tolerance of `1e-10` (in fact the only inexact case is `2^63`,
which the rounded range check lets through to the saturating cast); lists
and structs convert elementwise. -/
theorem prost_to_json_number_rules :
    (∀ q : ℚ, q.den = 1 → ((I64MIN : ℚ)) ≤ q → q ≤ ((I64MAX : ℚ)) →
      prost_value_to_json_value (.numberValue (.finite q)) = .intNum q.num ∧
        ((q.num : ℚ)) = q) ∧
    (prost_value_to_json_value (.numberValue .nan) = .null ∧
     prost_value_to_json_value (.numberValue .posInf) = .null ∧
     prost_value_to_json_value (.numberValue .negInf) = .null) ∧
    (∀ q : ℚ, ¬ (q.den = 1 ∧ ((I64MIN : ℚ)) ≤ q ∧ q ≤ ((I64MAX : ℚ))) →
      ∃ v, jsonNumVal (prost_value_to_json_value (.numberValue (.finite q))) = some v ∧
        |v - q| ≤ (1 / 10 ^ 10) * |q|) ∧
    (∀ vs, prost_value_to_json_value (.listValue vs) =
      .arr (vs.map prost_value_to_json_value)) ∧
    (∀ fs, prost_value_to_json_value (.structValue fs) =
      .obj (fs.map (fun kv => (kv.1, prost_value_to_json_value kv.2)))) := by
  have hq_of_den : ∀ q : ℚ, q.den = 1 → ((q.num : ℚ)) = q := by
    intro q h
    rw [← Rat.den_eq_one_iff]
    exact h
  refine ⟨?_, ⟨rfl, rfl, rfl⟩, ?_, ?_, ?_⟩
  · intro q hden hlo hhi
    have hq := hq_of_den q hden
    rw [cast_I64MIN] at hlo
    rw [cast_I64MAX] at hhi
    have hbr : intBranch q := ⟨hden, by linarith, by linarith⟩
    have htr : ratTrunc q = q.num := ratTrunc_of_den_one q hden
    have hlo2 : (-9223372036854775808 : Int) ≤ q.num := by
      rw [← hq] at hlo
      exact_mod_cast hlo
    have hhi2 : q.num ≤ (9223372036854775807 : Int) := by
      rw [← hq] at hhi
      exact_mod_cast hhi
    refine ⟨?_, hq⟩
    have hcast : i64SatCast q = q.num := by
      simp only [i64SatCast, I64MIN, I64MAX]
      rw [htr]
      rw [if_neg (by omega), if_neg (by omega)]
    simp only [prost_value_to_json_value, if_pos hbr, hcast]
  · intro q hnot
    by_cases hbr : intBranch q
    · obtain ⟨hden, hhi, hlo⟩ := id hbr
      have hq := hq_of_den q hden
      -- the only value that reaches the saturating cast from outside the
      -- claimed range is 2^63 itself
      have hgt : ((9223372036854775807 : ℚ)) < q := by
        by_contra hle
        push_neg at hle
        exact hnot ⟨hden, by rw [cast_I64MIN] ; linarith, by rw [cast_I64MAX] ; exact hle⟩
      have hnum_gt : (9223372036854775807 : Int) < q.num := by
        rw [← hq] at hgt
        exact_mod_cast hgt
      have hnum_le : q.num ≤ (9223372036854775808 : Int) := by
        rw [← hq] at hhi
        exact_mod_cast hhi
      have hnum : q.num = 9223372036854775808 := by omega
      have hqval : q = ((9223372036854775808 : ℚ)) := by
        rw [← hq, hnum]
        norm_num
      have htr : ratTrunc q = q.num := ratTrunc_of_den_one q hden
      have hcast : i64SatCast q = (9223372036854775807 : Int) := by
        simp only [i64SatCast, I64MIN, I64MAX]
        rw [htr, hnum]
        rw [if_neg (by omega), if_pos (by omega)]
      refine ⟨((9223372036854775807 : ℚ)), ?_, ?_⟩
      · simp only [prost_value_to_json_value, if_pos hbr, hcast, jsonNumVal]
        norm_num
      · rw [hqval]
        rw [show ((9223372036854775807 : ℚ)) - 9223372036854775808 = -1 by norm_num]
        rw [abs_of_nonpos (by norm_num), abs_of_nonneg (by norm_num)]
        norm_num
    · refine ⟨q, ?_, ?_⟩
      · simp only [prost_value_to_json_value, if_neg hbr, jsonNumVal]
      · rw [sub_self, abs_zero]
        positivity
  · intro vs
    simp only [prost_value_to_json_value, prostListToJson_eq_map]
  · intro fs
    simp only [prost_value_to_json_value, prostFieldsToJson_eq_map]

/-- Closed witness for `prost_to_json_number_rules`: the integer case at
`30`, and the tolerance case at the non-integer `1/2`. -/
theorem prost_to_json_number_rules_witness :
    ((30 : ℚ).den = 1 ∧ ((I64MIN : ℚ)) ≤ 30 ∧ (30 : ℚ) ≤ ((I64MAX : ℚ)) ∧
      prost_value_to_json_value (.numberValue (.finite 30)) = .intNum (30 : ℚ).num) ∧
    (¬ ((1 / 2 : ℚ).den = 1 ∧ ((I64MIN : ℚ)) ≤ 1 / 2 ∧ (1 / 2 : ℚ) ≤ ((I64MAX : ℚ))) ∧
      ∃ v, jsonNumVal (prost_value_to_json_value (.numberValue (.finite (1 / 2)))) = some v ∧
        |v - 1 / 2| ≤ (1 / 10 ^ 10) * |(1 / 2 : ℚ)|) := by
  have hden : (30 : ℚ).den = 1 := by norm_num
  have hlo : ((I64MIN : ℚ)) ≤ (30 : ℚ) := by
    rw [cast_I64MIN]
    norm_num
  have hhi : (30 : ℚ) ≤ ((I64MAX : ℚ)) := by
    rw [cast_I64MAX]
    norm_num
  have hnot : ¬ ((1 / 2 : ℚ).den = 1 ∧ ((I64MIN : ℚ)) ≤ 1 / 2 ∧ (1 / 2 : ℚ) ≤ ((I64MAX : ℚ))) := by
    rintro ⟨hd, -, -⟩
    norm_num at hd
  exact ⟨⟨hden, hlo, hhi, (prost_to_json_number_rules.1 30 hden hlo hhi).1⟩,
    ⟨hnot, prost_to_json_number_rules.2.2.1 (1 / 2) hnot⟩⟩

/-! Helper lemmas about visibility and completion. -/

theorem contains_eq_true_iff (l : List Nat) (x : Nat) :
    l.contains x = true ↔ x ∈ l := by
  simp [List.contains]

theorem is_visible_iff (s : PgSnapshot) (x : Nat) :
    s.is_visible x = true ↔ (x < s.xmin ∨ (x < s.xmax ∧ x ∉ s.xip_list)) := by
  unfold PgSnapshot.is_visible
  split_ifs with h1 h2
  · simp [h1]
  · simp only [Bool.false_eq_true, false_iff]
    rintro (h | ⟨h, _⟩) <;> omega
  · simp only [Bool.not_eq_true', ← Bool.not_eq_true, contains_eq_true_iff]
    constructor
    · intro h
      exact Or.inr ⟨by omega, by simpa [contains_eq_true_iff] using h⟩
    · rintro (h | ⟨_, hm⟩)
      · omega
      · simpa [contains_eq_true_iff] using hm

theorem mark_complete_fields (s : PgSnapshot) (xid : Nat) :
    s.mark_complete xid =
      ⟨if (s.xip_list.erase xid).isEmpty then
          (if s.xmax ≤ xid then xid + 1 else s.xmax)
        else s.xmin,
        if s.xmax ≤ xid then xid + 1 else s.xmax,
        s.xip_list.erase xid⟩ := rfl

/-- C8: for a well-formed snapshot, visibility is monotone under completion
of any other transaction id, and completing an in-progress id makes that id
visible. -/
theorem is_visible_mark_complete_monotone (s : PgSnapshot) (hwf : s.wf) (x y : Nat) :
    (y ≠ x → s.is_visible x = true → (s.mark_complete y).is_visible x = true) ∧
    (x ∈ s.xip_list → (s.mark_complete x).is_visible x = true) := by
  obtain ⟨hle, hsort, hbound⟩ := hwf
  constructor
  · intro _ hvis
    rw [is_visible_iff] at hvis ⊢
    rw [mark_complete_fields]
    by_cases hemp : (s.xip_list.erase y).isEmpty
    · simp only [hemp, if_true]
      rcases hvis with h | ⟨h, _⟩ <;>
        · left
          by_cases hy : s.xmax ≤ y <;> simp [hy] <;> omega
    · simp only [hemp, if_false]
      rcases hvis with h | ⟨h, hm⟩
      · exact Or.inl h
      · refine Or.inr ⟨?_, fun hmem => hm (List.mem_of_mem_erase hmem)⟩
        by_cases hy : s.xmax ≤ y <;> simp [hy] <;> omega
  · intro hx
    have hb := hbound x hx
    have hnd : s.xip_list.Nodup := hsort.nodup
    rw [is_visible_iff, mark_complete_fields]
    have hxmax : ¬ s.xmax ≤ x := by omega
    by_cases hemp : (s.xip_list.erase x).isEmpty
    · simp only [hemp, if_true, hxmax, if_false]
      left
      omega
    · simp only [hemp, if_false, hxmax]
      refine Or.inr ⟨by omega, ?_⟩
      simp [hnd.mem_erase_iff]

/-- Closed witness for `is_visible_mark_complete_monotone`. -/
theorem is_visible_mark_complete_monotone_witness :
    (PgSnapshot.wf ⟨1, 5, [2, 3]⟩) ∧
    ((PgSnapshot.mk 1 5 [2, 3]).mark_complete 2).is_visible 4 = true ∧
    ((PgSnapshot.mk 1 5 [2, 3]).mark_complete 2).is_visible 2 = true :=
  ⟨by decide,
   (is_visible_mark_complete_monotone ⟨1, 5, [2, 3]⟩ (by decide) 4 2).1
     (by decide) (by decide),
   (is_visible_mark_complete_monotone ⟨1, 5, [2, 3]⟩ (by decide) 2 2).2
     (by decide)⟩

/-- C10: `mark_complete` preserves snapshot well-formedness. -/
theorem mark_complete_preserves_wf (s : PgSnapshot) (hwf : s.wf) (xid : Nat) :
    (s.mark_complete xid).wf := by
  obtain ⟨hle, hsort, hbound⟩ := hwf
  rw [mark_complete_fields]
  refine ⟨?_, ?_, ?_⟩
  · by_cases hemp : (s.xip_list.erase xid).isEmpty <;>
      by_cases hy : s.xmax ≤ xid <;> simp [hemp, hy] <;> omega
  · exact hsort.sublist (List.erase_sublist xid s.xip_list)
  · intro x hx
    have hb := hbound x (List.mem_of_mem_erase hx)
    have hne : ¬ (s.xip_list.erase xid).isEmpty := by
      intro hemp
      rw [List.isEmpty_iff] at hemp
      simp [hemp] at hx
    simp only [hne, if_false]
    by_cases hy : s.xmax ≤ xid <;> simp [hy] <;> omega

/-- Closed witness for `mark_complete_preserves_wf`. -/
theorem mark_complete_preserves_wf_witness :
    (PgSnapshot.wf ⟨1, 5, [2, 3]⟩) ∧ ((PgSnapshot.mk 1 5 [2, 3]).mark_complete 7).wf :=
  ⟨by decide, mark_complete_preserves_wf ⟨1, 5, [2, 3]⟩ (by decide) 7⟩

/-- C6 (amended): parsing succeeds exactly when the colon split yields three
parts, `xmin` and `xmax` parse as unsigned 64-bit integers, and the third
part is empty or every comma-separated element parses as an unsigned 64-bit
integer.  No sortedness, uniqueness or range validation of the in-progress
list is performed (see `from_str_accepts_unsorted_xip`). -/
theorem from_str_ok_iff (s : List Char) :
    (PgSnapshot.from_str s).isOk = true ↔
      ∃ p0 p1 p2, splitOnChar ':' s = [p0, p1, p2] ∧
        (parseU64 p0).isSome = true ∧ (parseU64 p1).isSome = true ∧
        (p2.isEmpty = true ∨ (parseU64List (splitOnChar ',' p2)).isSome = true) := by
  unfold PgSnapshot.from_str
  rcases hsp : splitOnChar ':' s with _ | ⟨p0, _ | ⟨p1, _ | ⟨p2, _ | ⟨q, qs⟩⟩⟩⟩
  · simp [hsp, Except.isOk, Except.toBool]
  · simp [hsp, Except.isOk, Except.toBool]
  · simp [hsp, Except.isOk, Except.toBool]
  · rcases hp0 : parseU64 p0 with _ | v0
    · simp [hp0, Except.isOk, Except.toBool]
    rcases hp1 : parseU64 p1 with _ | v1
    · simp [hp0, hp1, Except.isOk, Except.toBool]
    by_cases h2 : p2.isEmpty = true
    · simp [hp0, hp1, h2, Except.isOk, Except.toBool]
      exact ⟨p0, p1, p2, ⟨rfl, rfl, rfl⟩, by simp [hp0], by simp [hp1],
        Or.inl (by simpa [List.isEmpty_iff] using h2)⟩
    rcases hxs : parseU64List (splitOnChar ',' p2) with _ | xs
    · simp [hp0, hp1, h2, hxs, Except.isOk, Except.toBool]
      intro hp
      exact absurd (by simp [hp]) h2
    · simp [hp0, hp1, h2, hxs, Except.isOk, Except.toBool]
      exact ⟨p0, p1, p2, ⟨rfl, rfl, rfl⟩, by simp [hp0], by simp [hp1],
        Or.inr (by simp [hxs])⟩
  · simp [hsp, Except.isOk, Except.toBool]

/-- Counterexample to C6 as stated: the string `1:5:4,2` has an in-progress
list that is not sorted, so the claim demands a parse failure, yet
`from_str` accepts it. -/
theorem from_str_accepts_unsorted_xip :
    PgSnapshot.from_str "1:5:4,2".data = .ok ⟨1, 5, [4, 2]⟩ ∧
      ¬ ([4, 2] : List Nat).Sorted (· < ·) := by
  constructor
  · rfl
  · decide

/-! Round-trip lemmas for the zookie codec. -/

theorem b64Val_b64Char : ∀ s : Nat, s < 64 → b64Val (b64Char s) = some s := by
  decide

theorem b64Val_pad : b64Val '=' = none := by
  decide

theorem b64decode_encode :
    ∀ bs : List Nat, (∀ b ∈ bs, b < 256) → b64decode (b64encode bs) = some bs
  | [], _ => rfl
  | [a], h => by
    have ha : a < 256 := h a (by simp)
    have h1 := b64Val_b64Char (a / 4) (by omega)
    have h2 := b64Val_b64Char ((a % 4) * 16) (by omega)
    simp only [b64encode, b64decode, h1, h2, b64Val_pad]
    rw [if_pos ⟨trivial, trivial, trivial, by omega⟩]
    have he : a / 4 * 4 + a % 4 * 16 / 16 = a := by omega
    rw [he]
  | [a, b], h => by
    have ha : a < 256 := h a (by simp)
    have hb : b < 256 := h b (by simp)
    have h1 := b64Val_b64Char (a / 4) (by omega)
    have h2 := b64Val_b64Char ((a % 4) * 16 + b / 16) (by omega)
    have h3 := b64Val_b64Char ((b % 16) * 4) (by omega)
    simp only [b64encode, b64decode, h1, h2, h3, b64Val_pad]
    rw [if_pos ⟨trivial, trivial, by omega⟩]
    have e1 : (a % 4 * 16 + b / 16) % 16 * 16 + b % 16 * 4 / 4 = b := by omega
    have e2 : a / 4 * 4 + (a % 4 * 16 + b / 16) / 16 = a := by omega
    rw [e1, e2]
  | a :: b :: c :: rest, h => by
    have ha : a < 256 := h a (by simp)
    have hb : b < 256 := h b (by simp)
    have hc : c < 256 := h c (by simp)
    have h1 := b64Val_b64Char (a / 4) (by omega)
    have h2 := b64Val_b64Char ((a % 4) * 16 + b / 16) (by omega)
    have h3 := b64Val_b64Char ((b % 16) * 4 + c / 64) (by omega)
    have h4 := b64Val_b64Char (c % 64) (by omega)
    have ih := b64decode_encode rest (fun x hx => h x (by simp [hx]))
    simp only [b64encode, b64decode, h1, h2, h3, h4, ih, Option.map_some]
    have e1 : a / 4 * 4 + (a % 4 * 16 + b / 16) / 16 = a := by omega
    have e2 : (a % 4 * 16 + b / 16) % 16 * 16 + (b % 16 * 4 + c / 64) / 4 = b := by omega
    have e3 : (b % 16 * 4 + c / 64) % 4 * 64 + c % 64 = c := by omega
    rw [e1, e2, e3]
    rfl

theorem expectBytes_append : ∀ p r : List Nat, expectBytes p (p ++ r) = some r := by
  intro p
  induction p with
  | nil => intro r ; rfl
  | cons b bs ih =>
    intro r
    simp only [List.cons_append, expectBytes, if_pos rfl]
    exact ih r

theorem foldr_eq_ofDigits :
    ∀ ds : List Nat, ds.foldr (fun d acc => 10 * acc + d) 0 = Nat.ofDigits 10 ds := by
  intro ds
  induction ds with
  | nil => simp [Nat.ofDigits]
  | cons d ds ih =>
    simp only [List.foldr_cons, ih, Nat.ofDigits_cons]
    omega

theorem digitsVal_natDigits (n : Nat) : digitsVal (natDigits n) = n := by
  unfold digitsVal natDigits
  rw [List.foldl_reverse]
  have := foldr_eq_ofDigits (Nat.digits 10 n)
  rw [show (fun (x : Nat) (y : Nat) => 10 * y + x) = (fun d acc => 10 * acc + d) from rfl]
  rw [this]
  exact_mod_cast Nat.ofDigits_digits 10 n

theorem digitsVal_canonDigits (n : Nat) : digitsVal (canonDigits n) = n := by
  unfold canonDigits
  split_ifs with h
  · simp [h, digitsVal]
  · exact digitsVal_natDigits n

theorem canonDigits_lt_ten (n : Nat) : ∀ d ∈ canonDigits n, d < 10 := by
  unfold canonDigits
  split_ifs with h
  · simp
  · intro d hd
    unfold natDigits at hd
    rw [List.mem_reverse] at hd
    exact Nat.digits_lt_base (by norm_num) hd

theorem canonDigits_ne_nil (n : Nat) : canonDigits n ≠ [] := by
  unfold canonDigits
  split_ifs with h
  · simp
  · unfold natDigits
    simp [Nat.digits_ne_nil_iff_ne_zero, h]

theorem natToBytes_bounds (n : Nat) : ∀ b ∈ natToBytes n, 48 ≤ b ∧ b ≤ 57 := by
  intro b hb
  unfold natToBytes at hb
  rw [List.mem_map] at hb
  obtain ⟨d, hd, rfl⟩ := hb
  have := canonDigits_lt_ten n d hd
  omega

theorem takeDigits_map_append (ds : List Nat) (r : List Nat)
    (hds : ∀ d ∈ ds, d < 10) (hr : headNotDigit r) :
    takeDigits (ds.map (· + 48) ++ r) = (ds, r) := by
  induction ds with
  | nil =>
    simp only [List.map_nil, List.nil_append]
    match r, hr with
    | [], _ => rfl
    | b :: t, hr =>
      unfold takeDigits
      rw [if_neg]
      unfold headNotDigit at hr
      omega
  | cons d ds ih =>
    have hd : d < 10 := hds d (by simp)
    simp only [List.map_cons, List.cons_append]
    unfold takeDigits
    rw [if_pos (by omega)]
    simp only [ih (fun x hx => hds x (by simp [hx])), Nat.add_sub_cancel]

theorem parseNatBytes_append (n : Nat) (r : List Nat) (hr : headNotDigit r) :
    parseNatBytes (natToBytes n ++ r) = some (n, r) := by
  unfold parseNatBytes natToBytes
  rw [takeDigits_map_append (canonDigits n) r (canonDigits_lt_ten n) hr]
  match hc : canonDigits n, canonDigits_ne_nil n with
  | d :: ds, _ =>
    simp only []
    rw [← hc, digitsVal_canonDigits]

theorem splitOnByte_ne_nil (sep : Nat) (l : List Nat) : splitOnByte sep l ≠ [] := by
  cases l with
  | nil => simp [splitOnByte]
  | cons b rest =>
    unfold splitOnByte
    match h : splitOnByte sep rest with
    | [] => simp
    | t :: ts =>
      by_cases hb : b = sep <;> simp [hb]

theorem splitOnByte_no_sep (sep : Nat) (l : List Nat) (h : ∀ b ∈ l, b ≠ sep) :
    splitOnByte sep l = [l] := by
  induction l with
  | nil => rfl
  | cons b rest ih =>
    have hr := ih (fun x hx => h x (by simp [hx]))
    have hb : ¬ b = sep := h b (by simp)
    conv_lhs => rw [splitOnByte]
    rw [hr]
    simp [hb]

theorem splitOnByte_append_sep (sep : Nat) (l r : List Nat) (h : ∀ b ∈ l, b ≠ sep) :
    splitOnByte sep (l ++ sep :: r) = l :: splitOnByte sep r := by
  induction l with
  | nil =>
    simp only [List.nil_append]
    conv_lhs => rw [splitOnByte]
    match hsp : splitOnByte sep r with
    | [] => exact absurd hsp (splitOnByte_ne_nil sep r)
    | t :: ts => simp
  | cons b rest ih =>
    have hb : ¬ b = sep := h b (by simp)
    simp only [List.cons_append]
    conv_lhs => rw [splitOnByte]
    rw [ih (fun x hx => h x (by simp [hx]))]
    simp [hb]

theorem parsePlainNat_natToBytes (n : Nat) : parsePlainNat (natToBytes n) = some n := by
  unfold parsePlainNat
  rw [if_pos]
  · congr 1
    have hmap : (natToBytes n).map (fun x => x - 48) = canonDigits n := by
      unfold natToBytes
      rw [List.map_map]
      have hfun : ∀ d ∈ canonDigits n,
          ((fun x => x - 48) ∘ (fun x => x + 48)) d = id d := by
        intro d _
        simp
      rw [List.map_congr_left hfun, List.map_id]
    rw [hmap]
    exact digitsVal_canonDigits n
  · constructor
    · unfold natToBytes
      simp [canonDigits_ne_nil n]
    · rw [List.all_eq_true]
      intro b hb
      have := natToBytes_bounds n b hb
      simp only [Bool.and_eq_true, decide_eq_true_eq]
      omega

theorem natListBytes_eq_nil_iff (l : List Nat) : natListBytes l = [] ↔ l = [] := by
  match l with
  | [] => simp [natListBytes]
  | [n] =>
    simp only [natListBytes]
    constructor
    · intro h
      have := canonDigits_ne_nil n
      unfold natToBytes at h
      simp at h
      exact absurd h this
    · intro h
      simp at h
  | n :: m :: rest =>
    simp only [natListBytes]
    constructor
    · intro h
      simp at h
    · intro h
      simp at h

theorem natListBytes_bounds (l : List Nat) :
    ∀ b ∈ natListBytes l, (48 ≤ b ∧ b ≤ 57) ∨ b = 44 := by
  match l with
  | [] => simp [natListBytes]
  | [n] =>
    intro b hb
    exact Or.inl (natToBytes_bounds n b hb)
  | n :: m :: rest =>
    intro b hb
    simp only [natListBytes, List.mem_append, List.mem_cons] at hb
    rcases hb with hb | hb | hb
    · exact Or.inl (natToBytes_bounds n b hb)
    · exact Or.inr hb
    · exact natListBytes_bounds (m :: rest) b (by simpa [natListBytes] using hb)

theorem parseNatSegs_natListBytes (l : List Nat) (hne : l ≠ []) :
    parseNatSegs (splitOnByte 44 (natListBytes l)) = some l := by
  match l with
  | [n] =>
    simp only [natListBytes]
    rw [splitOnByte_no_sep 44 (natToBytes n)
      (fun b hb => by have := natToBytes_bounds n b hb ; omega)]
    unfold parseNatSegs
    rw [parsePlainNat_natToBytes]
    rfl
  | n :: m :: rest =>
    simp only [natListBytes]
    rw [splitOnByte_append_sep 44 (natToBytes n) (natListBytes (m :: rest))
      (fun b hb => by have := natToBytes_bounds n b hb ; omega)]
    unfold parseNatSegs
    rw [parsePlainNat_natToBytes]
    rw [show natListBytes (m :: rest) = natListBytes (m :: rest) from rfl] at *
    have ih := parseNatSegs_natListBytes (m :: rest) (by simp)
    rw [ih]

theorem takeWhile_not93_append (l r : List Nat) (h : ∀ b ∈ l, b ≠ 93) :
    (l ++ 93 :: r).takeWhile (fun b => b ≠ 93) = l ∧
      (l ++ 93 :: r).drop l.length = 93 :: r := by
  constructor
  · induction l with
    | nil => simp [List.takeWhile]
    | cons b rest ih =>
      simp only [List.cons_append, List.takeWhile_cons]
      rw [if_pos (by simp [h b (by simp)])]
      rw [ih (fun x hx => h x (by simp [hx]))]
  · rw [List.drop_left]

theorem cat_snapshot_xmin (t : List Nat) :
    strBytes "\x7b\"snapshot\":" ++ (strBytes "\x7b\"xmin\":" ++ t) =
      strBytes "\x7b\"snapshot\":\x7b\"xmin\":" ++ t := by
  rw [← List.append_assoc]
  rfl

theorem cat_rbrace_oxid (t : List Nat) :
    strBytes "]\x7d" ++ (strBytes ",\"optional_xid\":" ++ t) =
      strBytes "]\x7d,\"optional_xid\":" ++ t := by
  rw [← List.append_assoc]
  rfl

theorem hnd_append (l t : List Nat) (hne : l ≠ []) (h : headNotDigit l) :
    headNotDigit (l ++ t) := by
  cases l with
  | nil => exact absurd rfl hne
  | cons b rest => exact h

theorem parseRevision_toBytes_some (xmin xmax : Nat) (xips : List Nat) (x : Nat) :
    parseRevision (revisionToBytes ⟨⟨xmin, xmax, xips⟩, some x⟩) =
      some ⟨⟨xmin, xmax, xips⟩, some x⟩ := by
  simp only [revisionToBytes, snapshotToBytes, List.append_assoc, cat_snapshot_xmin,
    cat_rbrace_oxid]
  simp only [parseRevision]
  rw [expectBytes_append]
  simp only [Option.some_bind]
  have hc1 : headNotDigit (strBytes ",\"xmax\":") := Or.inl (by decide)
  have hc2 : headNotDigit (strBytes ",\"xip_list\":[") := Or.inl (by decide)
  have hc3 : headNotDigit (strBytes "\x7d") := Or.inr (by decide)
  rw [parseNatBytes_append xmin _ (hnd_append _ _ (by decide) hc1)]
  simp only [Option.some_bind]
  rw [expectBytes_append]
  simp only [Option.some_bind]
  rw [parseNatBytes_append xmax _ (hnd_append _ _ (by decide) hc2)]
  simp only [Option.some_bind]
  rw [expectBytes_append]
  simp only [Option.some_bind]
  have hsplit : ∀ T : List Nat,
      strBytes "]\x7d,\"optional_xid\":" ++ T =
        93 :: (strBytes "\x7d,\"optional_xid\":" ++ T) := fun T => rfl
  have hno93 : ∀ b ∈ natListBytes xips, b ≠ 93 := by
    intro b hb
    have := natListBytes_bounds xips b hb
    omega
  rw [hsplit]
  obtain ⟨htw, hdr⟩ := takeWhile_not93_append (natListBytes xips)
    (strBytes "\x7d,\"optional_xid\":" ++ (natToBytes x ++ strBytes "\x7d")) hno93
  rw [htw, hdr]
  rw [← hsplit]
  rw [expectBytes_append]
  have hnull : expectBytes (strBytes "null") (natToBytes x ++ strBytes "\x7d") = none := by
    match hcd : canonDigits x, canonDigits_ne_nil x with
    | d :: ds, _ =>
      have hd : d < 10 := canonDigits_lt_ten x d (by rw [hcd] ; simp)
      unfold natToBytes
      rw [hcd]
      rw [show strBytes "null" = 110 :: strBytes "ull" from rfl]
      simp only [List.map_cons, List.cons_append, expectBytes]
      rw [if_neg (by omega)]
  have hpx : parseNatBytes (natToBytes x ++ strBytes "\x7d") = some (x, strBytes "\x7d") :=
    parseNatBytes_append x _ hc3
  have hrb : expectBytes (strBytes "\x7d") (strBytes "\x7d") = some [] := rfl
  by_cases hxe : xips = []
  · subst hxe
    simp only [natListBytes, Option.some_bind, if_pos rfl, hnull, hpx, Option.map_some,
      Option.some_bind, hrb, if_pos rfl]
    simp [hrb]
  · rw [if_neg (by simpa [natListBytes_eq_nil_iff] using hxe)]
    rw [parseNatSegs_natListBytes xips hxe]
    simp only [Option.some_bind, hnull, hpx, Option.map_some, Option.some_bind, hrb, if_pos rfl]
    simp [hrb]

theorem parseRevision_toBytes_none (xmin xmax : Nat) (xips : List Nat) :
    parseRevision (revisionToBytes ⟨⟨xmin, xmax, xips⟩, none⟩) =
      some ⟨⟨xmin, xmax, xips⟩, none⟩ := by
  simp only [revisionToBytes, snapshotToBytes, List.append_assoc, cat_snapshot_xmin,
    cat_rbrace_oxid]
  simp only [parseRevision]
  rw [expectBytes_append]
  simp only [Option.some_bind]
  have hc1 : headNotDigit (strBytes ",\"xmax\":") := Or.inl (by decide)
  have hc2 : headNotDigit (strBytes ",\"xip_list\":[") := Or.inl (by decide)
  rw [parseNatBytes_append xmin _ (hnd_append _ _ (by decide) hc1)]
  simp only [Option.some_bind]
  rw [expectBytes_append]
  simp only [Option.some_bind]
  rw [parseNatBytes_append xmax _ (hnd_append _ _ (by decide) hc2)]
  simp only [Option.some_bind]
  rw [expectBytes_append]
  simp only [Option.some_bind]
  have hsplit : ∀ T : List Nat,
      strBytes "]\x7d,\"optional_xid\":" ++ T =
        93 :: (strBytes "\x7d,\"optional_xid\":" ++ T) := fun T => rfl
  have hno93 : ∀ b ∈ natListBytes xips, b ≠ 93 := by
    intro b hb
    have := natListBytes_bounds xips b hb
    omega
  rw [hsplit]
  obtain ⟨htw, hdr⟩ := takeWhile_not93_append (natListBytes xips)
    (strBytes "\x7d,\"optional_xid\":" ++ (strBytes "null" ++ strBytes "\x7d")) hno93
  rw [htw, hdr]
  rw [← hsplit]
  rw [expectBytes_append]
  have hnull : expectBytes (strBytes "null") (strBytes "null" ++ strBytes "\x7d") =
      some (strBytes "\x7d") := expectBytes_append _ _
  have hrb : expectBytes (strBytes "\x7d") (strBytes "\x7d") = some [] := rfl
  by_cases hxe : xips = []
  · subst hxe
    simp only [natListBytes, Option.some_bind, if_pos rfl, hnull, Option.some_bind, hrb,
      if_pos rfl]
    simp [hrb]
  · rw [if_neg (by simpa [natListBytes_eq_nil_iff] using hxe)]
    rw [parseNatSegs_natListBytes xips hxe]
    simp only [Option.some_bind, hnull, Option.some_bind, hrb, if_pos rfl]
    simp [hrb]

theorem parseRevision_toBytes (r : Revision) :
    parseRevision (revisionToBytes r) = some r := by
  obtain ⟨⟨xmin, xmax, xips⟩, oxid⟩ := r
  cases oxid with
  | none => exact parseRevision_toBytes_none xmin xmax xips
  | some x => exact parseRevision_toBytes_some xmin xmax xips x

theorem revisionToBytes_lt_256 (r : Revision) : ∀ b ∈ revisionToBytes r, b < 256 := by
  obtain ⟨⟨xmin, xmax, xips⟩, oxid⟩ := r
  have hlit1 : ∀ b ∈ strBytes "\x7b\"snapshot\":", b < 256 := by decide
  have hlit2 : ∀ b ∈ strBytes "\x7b\"xmin\":", b < 256 := by decide
  have hlit3 : ∀ b ∈ strBytes ",\"xmax\":", b < 256 := by decide
  have hlit4 : ∀ b ∈ strBytes ",\"xip_list\":[", b < 256 := by decide
  have hlit5 : ∀ b ∈ strBytes "]\x7d", b < 256 := by decide
  have hlit6 : ∀ b ∈ strBytes ",\"optional_xid\":", b < 256 := by decide
  have hlit7 : ∀ b ∈ strBytes "null", b < 256 := by decide
  have hlit8 : ∀ b ∈ strBytes "\x7d", b < 256 := by decide
  intro b hb
  simp only [revisionToBytes, snapshotToBytes, List.append_assoc, List.mem_append] at hb
  rcases hb with h | h | h | h | h | h | h | h | h
  · exact hlit1 b h
  · exact hlit2 b h
  · have := natToBytes_bounds xmin b h
    omega
  · exact hlit3 b h
  · have := natToBytes_bounds xmax b h
    omega
  · exact hlit4 b h
  · have := natListBytes_bounds xips b h
    omega
  · exact hlit5 b h
  · rcases h with h | h
    · exact hlit6 b h
    · rcases h with h | h
      · cases oxid with
        | none => exact hlit7 b (by simpa using h)
        | some x =>
          have := natToBytes_bounds x b (by simpa using h)
          omega
      · exact hlit8 b h

/-- C7: zookie round trip and decode failure taxonomy.  Decoding an
encoded revision restores it exactly; a token whose base64 decoding fails
yields the `Invalid zookie encoding` error, and a token whose decoded
bytes do not parse as a revision yields the `Invalid zookie format`
error — both the `InvalidToken` failures of the claim. -/
theorem zookie_codec_spec :
    (∀ r : Revision, Revision.from_zookie (Revision.to_zookie r) = .ok r) ∧
    (∀ z : Zookie, b64decode z.value = none →
      Revision.from_zookie z = .error .invalidEncoding) ∧
    (∀ z : Zookie, ∀ bs, b64decode z.value = some bs → parseRevision bs = none →
      Revision.from_zookie z = .error .invalidFormat) := by
  refine ⟨?_, ?_, ?_⟩
  · intro r
    simp only [Revision.from_zookie, Revision.to_zookie,
      b64decode_encode _ (revisionToBytes_lt_256 r), parseRevision_toBytes]
  · intro z h
    simp only [Revision.from_zookie, h]
  · intro z bs h1 h2
    simp only [Revision.from_zookie, h1, h2]

/-- Closed witness for `zookie_codec_spec`: a concrete round trip, a
one-character token that is not valid base64, and the empty token whose
(empty) byte content is not a revision. -/
theorem zookie_codec_spec_witness :
    (Revision.from_zookie (Revision.to_zookie ⟨⟨100, 105, [101, 103]⟩, some 104⟩) =
      .ok ⟨⟨100, 105, [101, 103]⟩, some 104⟩) ∧
    (b64decode [ '!' ] = none ∧
      Revision.from_zookie ⟨[ '!' ]⟩ = .error .invalidEncoding) ∧
    (b64decode ([] : List Char) = some [] ∧ parseRevision [] = none ∧
      Revision.from_zookie ⟨[]⟩ = .error .invalidFormat) :=
  ⟨zookie_codec_spec.1 ⟨⟨100, 105, [101, 103]⟩, some 104⟩,
   ⟨rfl, zookie_codec_spec.2.1 ⟨[ '!' ]⟩ rfl⟩,
   ⟨rfl, rfl, zookie_codec_spec.2.2 ⟨[]⟩ [] rfl rfl⟩⟩

/-! Claims about the consistency modes and the service gates. -/

/-- C2 (amended): `AtLeastAsFresh` reads are evaluated exactly like
`ExactlyAt` reads — visibility is pinned to `P = rev.snapshot.xmax` of the
supplied revision, with no comparison against the current snapshot and no
fallback to `Full` (the source shares one query arm between the two
modes). -/
theorem at_least_as_fresh_pinned :
    (∀ (M : Type) (s : DBState M) (oid : Nat) (rev : Revision),
      get_object s oid (.atLeastAsFresh rev) = get_object s oid (.exactlyAt rev)) ∧
    (∀ (M : Type) (s : DBState M) (f : Nat) (r : String) (rev : Revision),
      get_edges s f r (.atLeastAsFresh rev) =
        .ok (s.triples.filter (fun e => e.fromId == f && e.relation == r &&
          (decide (e.createdXid ≤ rev.snapshot.xmax) &&
            decide (rev.snapshot.xmax < e.deletedXid))))) := by
  constructor
  · intro M s oid rev
    rfl
  · intro M s f r rev
    rfl

/-- Counterexample to C2 as stated: after one update, the freshness
condition `rev.xmax ≤ current_snapshot.xmax` holds, yet the
`AtLeastAsFresh` read returns the old metadata version pinned at the
revision while `Full` returns the last written one, so the read is not
evaluated against the current committed view. -/
theorem at_least_as_fresh_not_full :
    let s0 : DBState Nat := ⟨1, 1, 1, [], [], []⟩
    let c := create_object "alice" "t" 10 s0
    let s2 := (update_object "alice" c.2.1.id 20 c.1).1
    (c.2.2.snapshot.xmax ≤ (current_snapshot s2).xmax) ∧
    get_object s2 c.2.1.id (.atLeastAsFresh c.2.2) = .ok (some ⟨1, "t", 10⟩) ∧
    get_object s2 c.2.1.id .full = .ok (some ⟨1, "t", 20⟩) ∧
    get_object s2 c.2.1.id (.atLeastAsFresh c.2.2) ≠ get_object s2 c.2.1.id .full := by
  refine ⟨by decide, rfl, rfl, ?_⟩
  intro h
  rw [show get_object ((update_object "alice"
      (create_object "alice" "t" 10 ⟨1, 1, 1, [], [], []⟩).2.1.id 20
      (create_object "alice" "t" 10 ⟨1, 1, 1, [], [], []⟩).1).1)
      (create_object "alice" "t" 10 ⟨1, 1, 1, [], [], []⟩).2.1.id
      (.atLeastAsFresh (create_object "alice" "t" 10 ⟨1, 1, 1, [], [], []⟩).2.2) =
      .ok (some ⟨1, "t", 10⟩) from rfl] at h
  rw [show get_object ((update_object "alice"
      (create_object "alice" "t" 10 ⟨1, 1, 1, [], [], []⟩).2.1.id 20
      (create_object "alice" "t" 10 ⟨1, 1, 1, [], [], []⟩).1).1)
      (create_object "alice" "t" 10 ⟨1, 1, 1, [], [], []⟩).2.1.id .full =
      .ok (some ⟨1, "t", 20⟩) from rfl] at h
  simp at h

/-- C3 (amended): the `authorization` gate of the service.  The principal
resolver rejects a missing header and a token the verifier rejects with
`Unauthenticated`; the `GetObject`, `CreateObject`, `UpdateObject` and
`CreateEdge` handlers propagate that failure before touching the store;
but `GetEdge`, `GetEdges` and `CreateSchema` never consult the
authorization header or the verifier and serve data without a
principal. -/
theorem auth_gate_spec :
    (∀ verify : TokenVerifier,
      user_id verify none = .error (.unauthenticated "Missing authorization token")) ∧
    (∀ (verify : TokenVerifier) (tok : String),
      verify (if tok.startsWith "Bearer " then tok.drop 7 else tok) = none →
      user_id verify (some tok) = .error (.unauthenticated "Invalid token")) ∧
    (∀ (M : Type) (verify : TokenVerifier) (s : DBState M) auth oid cons e,
      user_id verify auth = .error e →
      get_object_handler verify s auth oid cons = .error e) ∧
    (∀ (M : Type) (verify : TokenVerifier) validate (s : DBState M) auth ty (m : M) e,
      user_id verify auth = .error e →
      create_object_handler verify validate s auth ty m = (s, .error e)) ∧
    (∀ (M : Type) (verify : TokenVerifier) validate (s : DBState M) auth oid (m : M) e,
      user_id verify auth = .error e →
      update_object_handler verify validate s auth oid m = (s, .error e)) ∧
    (∀ (M : Type) (verify : TokenVerifier) (s : DBState M) auth f ft t tt rel (m : M) e,
      user_id verify auth = .error e →
      create_edge_handler verify s auth f ft t tt rel m = (s, .error e)) ∧
    (∀ (M : Type) (v1 v2 : TokenVerifier) (s : DBState M) a1 a2 oid ety cons,
      get_edge_handler v1 s a1 oid ety cons = get_edge_handler v2 s a2 oid ety cons) ∧
    (∀ (M : Type) (v1 v2 : TokenVerifier) (s : DBState M) a1 a2 oid ety cons,
      get_edges_handler v1 s a1 oid ety cons = get_edges_handler v2 s a2 oid ety cons) ∧
    (∀ (repo : String → String → Except Unit Nat) a1 a2 tn sch,
      create_schema_handler repo a1 tn sch = create_schema_handler repo a2 tn sch) := by
  refine ⟨fun verify => rfl, ?_, ?_, ?_, ?_, ?_, ?_, ?_, ?_⟩
  · intro verify tok h
    simp only [user_id, h]
  · intro M verify s auth oid cons e h
    simp only [get_object_handler, h]
  · intro M verify validate s auth ty m e h
    simp only [create_object_handler, h]
  · intro M verify validate s auth oid m e h
    simp only [update_object_handler, h]
  · intro M verify s auth f ft t tt rel m e h
    simp only [create_edge_handler, h]
  · intro M v1 v2 s a1 a2 oid ety cons
    rfl
  · intro M v1 v2 s a1 a2 oid ety cons
    rfl
  · intro repo a1 a2 tn sch
    rfl

/-- Closed witness for `auth_gate_spec`. -/
theorem auth_gate_spec_witness :
    user_id (fun _ => none) (some "tok") = .error (.unauthenticated "Invalid token") ∧
    get_object_handler (fun _ => none) (⟨1, 1, 1, [], [], []⟩ : DBState Nat)
      none 5 none = .error (.unauthenticated "Missing authorization token") ∧
    create_object_handler (fun _ => none) (fun _ _ => .valid)
      (⟨1, 1, 1, [], [], []⟩ : DBState Nat) none "t" 0 =
      (⟨1, 1, 1, [], [], []⟩, .error (.unauthenticated "Missing authorization token")) ∧
    update_object_handler (fun _ => none) (fun _ _ => .valid)
      (⟨1, 1, 1, [], [], []⟩ : DBState Nat) none 5 0 =
      (⟨1, 1, 1, [], [], []⟩, .error (.unauthenticated "Missing authorization token")) ∧
    create_edge_handler (fun _ => none) (⟨1, 1, 1, [], [], []⟩ : DBState Nat)
      none 1 "t" 2 "t" "rel" 0 =
      (⟨1, 1, 1, [], [], []⟩, .error (.unauthenticated "Missing authorization token")) :=
  ⟨auth_gate_spec.2.1 (fun _ => none) "tok" rfl,
   auth_gate_spec.2.2.1 Nat (fun _ => none) ⟨1, 1, 1, [], [], []⟩ none 5 none _ rfl,
   auth_gate_spec.2.2.2.1 Nat (fun _ => none) (fun _ _ => .valid)
     ⟨1, 1, 1, [], [], []⟩ none "t" 0 _ rfl,
   auth_gate_spec.2.2.2.2.1 Nat (fun _ => none) (fun _ _ => .valid)
     ⟨1, 1, 1, [], [], []⟩ none 5 0 _ rfl,
   auth_gate_spec.2.2.2.2.2.1 Nat (fun _ => none)
     ⟨1, 1, 1, [], [], []⟩ none 1 "t" 2 "t" "rel" 0 _ rfl⟩

/-- Counterexample to C3 as stated: with a verifier that rejects every
token and no `authorization` header at all, the `GetEdge` RPC still
resolves the edge and returns the target object — no `Unauthenticated`
failure and no principal resolution happen. -/
theorem get_edge_serves_without_auth :
    get_edge_handler (fun _ => none)
      (⟨3, 3, 2, [⟨2, "t", "alice", 1, MAXTXID⟩], [⟨2, 7, 1, MAXTXID⟩],
        [⟨1, "t", 1, "rel", "t", 2, 0, "alice", 2, MAXTXID⟩]⟩ : DBState Nat)
      none 1 "rel" none = .ok ⟨2, "t", 7⟩ := rfl

/-- C4 (amended): `GetObject` for an object id with no object row fails
with `Internal`, not `NotFound`: the ownership gate runs first and its
`fetch_one` read errors on the missing row, which the handler maps to
`Internal`. -/
theorem get_object_missing_internal :
    ∀ (M : Type) (verify : TokenVerifier) (s : DBState M) auth oid cons uid mode,
      user_id verify auth = .ok uid →
      parse_consistency_requirement cons = .ok mode →
      s.objects.find? (fun o => o.id == oid) = none →
      get_object_handler verify s auth oid cons =
        .error (.internal "Failed to check object ownership") := by
  intro M verify s auth oid cons uid mode h1 h2 h3
  simp only [get_object_handler, h1, h2, check_object_ownership, h3]

/-- Closed witness for `get_object_missing_internal`. -/
theorem get_object_missing_internal_witness :
    user_id (fun t => some t) (some "alice") = .ok "alice" ∧
    parse_consistency_requirement none = .ok .minimizeLatency ∧
    (⟨1, 1, 1, [], [], []⟩ : DBState Nat).objects.find? (fun o => o.id == 42) = none ∧
    get_object_handler (fun t => some t) (⟨1, 1, 1, [], [], []⟩ : DBState Nat)
      (some "alice") 42 none = .error (.internal "Failed to check object ownership") :=
  ⟨rfl, rfl, rfl,
   get_object_missing_internal Nat (fun t => some t) ⟨1, 1, 1, [], [], []⟩
     (some "alice") 42 none "alice" .minimizeLatency rfl rfl rfl⟩

/-- Counterexample to C4 as stated: on a state with no objects at all,
`GetObject` of id 42 under the default consistency mode returns
`Internal`, and no `NotFound` reply is possible. -/
theorem get_object_missing_not_notFound :
    get_object_handler (fun t => some t) (⟨1, 1, 1, [], [], []⟩ : DBState Nat)
      (some "alice") 42 none = .error (.internal "Failed to check object ownership") ∧
    ∀ msg, get_object_handler (fun t => some t) (⟨1, 1, 1, [], [], []⟩ : DBState Nat)
      (some "alice") 42 none ≠ .error (.notFound msg) :=
  ⟨rfl, fun msg h => GStatus.noConfusion (Except.error.inj h)⟩

/-! Ownership invariance (C5). -/

theorem find?_map_owner (l : List ObjRow) (oid qid : Nat) (uid : String) :
    (l.map (fun p => if p.id = oid then { p with userId := uid } else p)).find?
      (fun o => o.id == qid) =
    (l.find? (fun o => o.id == qid)).map
      (fun p => if p.id = oid then { p with userId := uid } else p) := by
  induction l with
  | nil => rfl
  | cons a l ih =>
    have hpred : ((if a.id = oid then { a with userId := uid } else a).id == qid) =
        (a.id == qid) := by
      by_cases hao : a.id = oid <;> simp [hao]
    by_cases ha : a.id = qid
    · rw [List.map_cons,
        List.find?_cons_of_pos _ (by rw [hpred] ; simpa using ha),
        List.find?_cons_of_pos _ (by simpa using ha)]
      rfl
    · rw [List.map_cons,
        List.find?_cons_of_neg _ (by rw [hpred] ; simpa using ha),
        List.find?_cons_of_neg _ (by simpa using ha)]
      exact ih

theorem ownerOf_update_object {M : Type} (s : DBState M) (uid : String)
    (oid qid : Nat) (m : M) (u : String) (hown : ownerOf s qid = some u)
    (hgate : check_object_ownership s oid uid = .ok true) :
    ownerOf (update_object uid oid m s).1 qid = some u := by
  unfold check_object_ownership at hgate
  unfold update_object
  cases hf : s.objects.find? (fun o => o.id == oid) with
  | none =>
    rw [hf] at hgate
    exact absurd hgate (by simp)
  | some o =>
    rw [hf] at hgate
    have howner : o.userId = uid := eq_of_beq (Except.ok.inj hgate)
    simp only [ownerOf] at hown ⊢
    rw [find?_map_owner]
    cases hq2 : s.objects.find? (fun o2 => o2.id == qid) with
    | none =>
      rw [hq2] at hown
      exact absurd hown (by simp)
    | some q =>
      rw [hq2] at hown
      simp only [Option.map_some'] at hown ⊢
      by_cases hqo : q.id = oid
      · rw [if_pos hqo]
        have hqid : q.id = qid := by
          have := List.find?_some hq2
          simpa using this
        have hqoid : qid = oid := by omega
        subst hqoid
        rw [hf] at hq2
        have hqo2 : o = q := Option.some.inj hq2
        subst hqo2
        simp only [← hown, howner]
      · rw [if_neg hqo]
        exact hown

/-- C5: the stored owner of an object is the creating principal and is
never changed by any sequence of service-level operations.  Creation
stores the authenticated principal as `user_id`; every later service
call — including `UpdateObject`, which rewrites the `user_id` column —
preserves it, because the ownership gate admits only the current owner,
so the rewrite writes the same value back. -/
theorem owner_set_and_preserved :
    (∀ (M : Type) (verify : TokenVerifier) (validate : String → M → ValidationResult)
        (s : DBState M) auth ty (m : M) uid,
      user_id verify auth = .ok uid →
      validate ty m = .valid →
      (∀ o ∈ s.objects, o.id < s.nextObjectId) →
      ownerOf (create_object_handler verify validate s auth ty m).1
        s.nextObjectId = some uid) ∧
    (∀ (M : Type) (verify : TokenVerifier) (validate : String → M → ValidationResult)
        (op : ServiceOp M) (s : DBState M) (qid : Nat) (u : String),
      ownerOf s qid = some u →
      ownerOf (exec_op verify validate op s) qid = some u) ∧
    (∀ (M : Type) (verify : TokenVerifier) (validate : String → M → ValidationResult)
        (ops : List (ServiceOp M)) (s : DBState M) (qid : Nat) (u : String),
      ownerOf s qid = some u →
      ownerOf (exec_ops verify validate ops s) qid = some u) := by
  have hcreate : ∀ (M : Type) (uid ty : String) (m : M) (s : DBState M) (qid : Nat)
      (u : String), ownerOf s qid = some u →
      ownerOf (create_object uid ty m s).1 qid = some u := by
    intro M uid ty m s qid u hown
    simp only [ownerOf, create_object] at hown ⊢
    rw [List.find?_append]
    cases hq : s.objects.find? (fun o => o.id == qid) with
    | none =>
      rw [hq] at hown
      exact absurd hown (by simp)
    | some q =>
      rw [hq] at hown
      simpa using hown
  have hop : ∀ (M : Type) (verify : TokenVerifier)
      (validate : String → M → ValidationResult) (op : ServiceOp M)
      (s : DBState M) (qid : Nat) (u : String),
      ownerOf s qid = some u →
      ownerOf (exec_op verify validate op s) qid = some u := by
    intro M verify validate op s qid u hown
    cases op with
    | createObject a ty m =>
      simp only [exec_op]
      cases hh : user_id verify a with
      | error e =>
        simp only [create_object_handler, hh]
        exact hown
      | ok uid =>
        cases hv : validate ty m with
        | invalid =>
          simp only [create_object_handler, hh, hv]
          exact hown
        | failure =>
          simp only [create_object_handler, hh, hv]
          exact hown
        | valid =>
          simp only [create_object_handler, hh, hv]
          exact hcreate M uid ty m s qid u hown
    | updateObject a oid m =>
      simp only [exec_op]
      cases hh : user_id verify a with
      | error e =>
        simp only [update_object_handler, hh]
        exact hown
      | ok uid =>
        cases hg : check_object_ownership s oid uid with
        | error e =>
          simp only [update_object_handler, hh, hg]
          exact hown
        | ok b =>
          cases b with
          | false =>
            simp only [update_object_handler, hh, hg]
            exact hown
          | true =>
            cases hgo : get_object s oid .full with
            | error e =>
              simp only [update_object_handler, hh, hg, hgo]
              exact hown
            | ok oo =>
              cases oo with
              | none =>
                simp only [update_object_handler, hh, hg, hgo]
                exact hown
              | some existing =>
                cases hv : validate existing.type_name m with
                | invalid =>
                  simp only [update_object_handler, hh, hg, hgo, hv]
                  exact hown
                | failure =>
                  simp only [update_object_handler, hh, hg, hgo, hv]
                  exact hown
                | valid =>
                  simp only [update_object_handler, hh, hg, hgo, hv]
                  have hpres := ownerOf_update_object s uid oid qid m u hown hg
                  cases hu : update_object uid oid m s with
                  | mk s1 r =>
                    rw [hu] at hpres
                    cases r with
                    | error e => exact hpres
                    | ok r2 =>
                      obtain ⟨obj, rev⟩ := r2
                      exact hpres
    | createEdge a f ft t tt rel m =>
      simp only [exec_op]
      cases hh : user_id verify a with
      | error e =>
        simp only [create_edge_handler, hh]
        exact hown
      | ok uid =>
        simp only [create_edge_handler, hh]
        simp only [ownerOf, create_edge] at hown ⊢
        exact hown
  refine ⟨?_, hop, ?_⟩
  · intro M verify validate s auth ty m uid h1 h2 hfresh
    simp only [create_object_handler, h1, h2, create_object, ownerOf]
    rw [List.find?_append]
    rw [List.find?_eq_none.mpr (fun o ho hpo => by
      have h5 := hfresh o ho
      have h6 : o.id = s.nextObjectId := by simpa using hpo
      omega)]
    rw [List.find?_cons_of_pos _ (by simp)]
    rfl
  · intro M verify validate ops
    induction ops with
    | nil => intro s qid u hown ; exact hown
    | cons op rest ih =>
      intro s qid u hown
      exact ih (exec_op verify validate op s) qid u
        (hop M verify validate op s qid u hown)

/-- Closed witness for `owner_set_and_preserved`: creation by `alice`
stores `alice`, and a subsequent self-update leaves the owner intact. -/
theorem owner_set_and_preserved_witness :
    user_id (fun t => some t) (some "alice") = .ok "alice" ∧
    ownerOf (create_object_handler (fun t => some t) (fun _ _ => .valid)
      (⟨1, 1, 1, [], [], []⟩ : DBState Nat) (some "alice") "t" 0).1 1 = some "alice" ∧
    ownerOf (exec_ops (fun t => some t) (fun _ _ => .valid)
      [.updateObject (some "alice") 1 5]
      (create_object_handler (fun t => some t) (fun _ _ => .valid)
        (⟨1, 1, 1, [], [], []⟩ : DBState Nat) (some "alice") "t" 0).1) 1 =
      some "alice" := by
  refine ⟨rfl, ?_, ?_⟩
  · exact owner_set_and_preserved.1 Nat (fun t => some t) (fun _ _ => .valid)
      ⟨1, 1, 1, [], [], []⟩ (some "alice") "t" 0 "alice" rfl rfl (by simp)
  · exact owner_set_and_preserved.2.2 Nat (fun t => some t) (fun _ _ => .valid)
      [.updateObject (some "alice") 1 5] _ 1 "alice"
      (owner_set_and_preserved.1 Nat (fun t => some t) (fun _ _ => .valid)
        ⟨1, 1, 1, [], [], []⟩ (some "alice") "t" 0 "alice" rfl rfl (by simp))

/-! MVCC snapshot isolation for metadata (C1): chain lemmas. -/

theorem chainRows_close {M : Type} (oid : Nat) :
    ∀ (ups : List (String × M)) (t0 : Nat) (m0 : M) (u1 : String) (m1 : M),
      t0 + ups.length + 1 ≤ MAXTXID →
      ((chainRows oid t0 m0 ups).map (fun h =>
        if h.objectId = oid ∧ h.deletedXid = MAXTXID then
          { h with deletedXid := t0 + ups.length + 1 } else h)) ++
        [⟨oid, m1, t0 + ups.length + 1, MAXTXID⟩] =
      chainRows oid t0 m0 (ups ++ [(u1, m1)]) := by
  intro ups
  induction ups with
  | nil =>
    intro t0 m0 u1 m1 ht
    simp [chainRows]
  | cons p rest ih =>
    intro t0 m0 u1 m1 ht
    obtain ⟨u2, m2⟩ := p
    simp only [chainRows, List.map_cons, List.cons_append, List.length_cons]
    rw [if_neg (by
      rintro ⟨-, habs⟩
      simp only [List.length_cons] at ht
      omega)]
    congr 1
    have harith : t0 + (rest.length + 1) + 1 = (t0 + 1) + rest.length + 1 := by omega
    rw [harith]
    exact ih (t0 + 1) m2 u1 m1 (by simp only [List.length_cons] at ht ; omega)

theorem map_close_of_ne {M : Type} (oid t1 : Nat) (base : List (MetaRow M))
    (hbase : ∀ h ∈ base, h.objectId ≠ oid) :
    base.map (fun h =>
      if h.objectId = oid ∧ h.deletedXid = MAXTXID then
        { h with deletedXid := t1 } else h) = base := by
  rw [List.map_congr_left (fun h hh => by
    rw [if_neg]
    rintro ⟨h1, -⟩
    exact hbase h hh h1)]
  exact List.map_id base

theorem map_owner_of_ne (oid : Nat) (uid : String) (objs : List ObjRow)
    (hobjs : ∀ o ∈ objs, o.id ≠ oid) :
    objs.map (fun p => if p.id = oid then { p with userId := uid } else p) = objs := by
  rw [List.map_congr_left (fun o ho => by
    rw [if_neg (hobjs o ho)])]
  exact List.map_id objs

theorem find?_fresh_obj (oid t0 : Nat) (ty u1 : String) (objs0 : List ObjRow)
    (hobjs : ∀ o ∈ objs0, o.id ≠ oid) :
    ((objs0 ++ [(⟨oid, ty, u1, t0, MAXTXID⟩ : ObjRow)]).find?
      (fun (o : ObjRow) => o.id == oid)) = some ⟨oid, ty, u1, t0, MAXTXID⟩ := by
  rw [List.find?_append]
  rw [List.find?_eq_none.mpr (fun o ho hpo => (hobjs o ho) (by simpa using hpo))]
  rw [List.find?_cons_of_pos _ (by simp)]
  rfl

theorem apply_updates_inv {M : Type} (oid t0 : Nat) (ty : String) (m0 : M) :
    ∀ (ups : List (String × M)) (u0 : String) (noid neid : Nat)
      (objs0 : List ObjRow) (base : List (MetaRow M)) (tr : List (EdgeRow M)),
      (∀ h ∈ base, h.objectId ≠ oid) →
      (∀ o ∈ objs0, o.id ≠ oid) →
      t0 + ups.length < MAXTXID →
      ∃ u1, apply_updates oid ups
          ⟨t0 + 1, noid, neid, objs0 ++ [⟨oid, ty, u0, t0, MAXTXID⟩],
            base ++ chainRows oid t0 m0 [], tr⟩ =
        ⟨t0 + 1 + ups.length, noid, neid, objs0 ++ [⟨oid, ty, u1, t0, MAXTXID⟩],
          base ++ chainRows oid t0 m0 ups, tr⟩ := by
  intro ups
  induction ups using List.reverseRecOn with
  | nil =>
    intro u0 noid neid objs0 base tr hbase hobjs hb
    exact ⟨u0, by simp [apply_updates]⟩
  | append_singleton ups p ih =>
    intro u0 noid neid objs0 base tr hbase hobjs hb
    obtain ⟨u2, m2⟩ := p
    obtain ⟨u1, hprev⟩ := ih u0 noid neid objs0 base tr hbase hobjs
      (by simp only [List.length_append, List.length_cons, List.length_nil] at hb ; omega)
    refine ⟨u2, ?_⟩
    have hfold : apply_updates oid (ups ++ [(u2, m2)])
        ⟨t0 + 1, noid, neid, objs0 ++ [⟨oid, ty, u0, t0, MAXTXID⟩],
          base ++ chainRows oid t0 m0 [], tr⟩ =
        (update_object u2 oid m2 (apply_updates oid ups
          ⟨t0 + 1, noid, neid, objs0 ++ [⟨oid, ty, u0, t0, MAXTXID⟩],
            base ++ chainRows oid t0 m0 [], tr⟩)).1 := by
      simp [apply_updates, List.foldl_append]
    rw [hfold, hprev]
    unfold update_object
    rw [find?_fresh_obj oid t0 ty u1 objs0 hobjs]
    simp only []
    have hlen : t0 + ups.length + 1 ≤ MAXTXID := by
      simp only [List.length_append, List.length_cons, List.length_nil] at hb
      omega
    have hhist : ((base ++ chainRows oid t0 m0 ups).map (fun h =>
        if h.objectId = oid ∧ h.deletedXid = MAXTXID then
          { h with deletedXid := t0 + 1 + ups.length } else h)) ++
        [⟨oid, m2, t0 + 1 + ups.length, MAXTXID⟩] =
        base ++ chainRows oid t0 m0 (ups ++ [(u2, m2)]) := by
      rw [List.map_append, map_close_of_ne oid _ base hbase, List.append_assoc]
      congr 1
      have harith : t0 + 1 + ups.length = t0 + ups.length + 1 := by omega
      rw [harith]
      exact chainRows_close oid ups t0 m0 u2 m2 hlen
    have hobjsmap : ((objs0 ++ [(⟨oid, ty, u1, t0, MAXTXID⟩ : ObjRow)]).map
        (fun p => if p.id = oid then { p with userId := u2 } else p)) =
        objs0 ++ [(⟨oid, ty, u2, t0, MAXTXID⟩ : ObjRow)] := by
      rw [List.map_append, map_owner_of_ne oid u2 objs0 hobjs]
      simp
    simp only [hhist, hobjsmap, List.length_append, List.length_cons, List.length_nil]
    congr 1

theorem chainRows_filter_gt {M : Type} (oid P : Nat) :
    ∀ (ups : List (String × M)) (t : Nat) (m : M), P < t →
      (chainRows oid t m ups).filter (fun h =>
        h.objectId == oid &&
          (decide (h.createdXid ≤ P) && decide (P < h.deletedXid))) = [] := by
  intro ups
  induction ups with
  | nil =>
    intro t m ht
    simp only [chainRows, List.filter_cons, List.filter_nil]
    rw [if_neg (by simp ; omega)]
  | cons p rest ih =>
    intro t m ht
    obtain ⟨u1, m1⟩ := p
    simp only [chainRows, List.filter_cons]
    rw [if_neg (by simp ; omega)]
    exact ih (t + 1) m1 (by omega)

theorem chainRows_filter_at_start {M : Type} (oid : Nat)
    (ups : List (String × M)) (t0 : Nat) (m0 : M) (ht : t0 < MAXTXID) :
    ∃ d, (chainRows oid t0 m0 ups).filter (fun h =>
      h.objectId == oid &&
        (decide (h.createdXid ≤ t0) && decide (t0 < h.deletedXid))) =
      [⟨oid, m0, t0, d⟩] := by
  cases ups with
  | nil =>
    refine ⟨MAXTXID, ?_⟩
    simp only [chainRows, List.filter_cons, List.filter_nil]
    rw [if_pos (by simp ; omega)]
  | cons p rest =>
    obtain ⟨u1, m1⟩ := p
    refine ⟨t0 + 1, ?_⟩
    simp only [chainRows, List.filter_cons]
    rw [if_pos (by simp)]
    rw [chainRows_filter_gt oid t0 rest (t0 + 1) m1 (by omega)]

theorem chainRows_filter_full {M : Type} (oid : Nat) :
    ∀ (ups : List (String × M)) (t0 : Nat) (m0 : M) (R : Nat),
      t0 + ups.length ≤ R → R < MAXTXID →
      (chainRows oid t0 m0 ups).filter (fun h =>
        h.objectId == oid &&
          (decide (h.createdXid ≤ R) && decide (R < h.deletedXid))) =
        [⟨oid, lastMeta m0 ups, t0 + ups.length, MAXTXID⟩] := by
  intro ups
  induction ups with
  | nil =>
    intro t0 m0 R hR hmax
    simp only [chainRows, List.filter_cons, List.filter_nil, lastMeta, List.map_nil,
      List.getLastD, List.length_nil]
    rw [if_pos (by simp ; omega)]
    simp
  | cons p rest ih =>
    intro t0 m0 R hR hmax
    obtain ⟨u1, m1⟩ := p
    simp only [chainRows, List.filter_cons, List.length_cons]
    rw [if_neg (by
      simp only [List.length_cons] at hR
      simp
      omega)]
    rw [ih (t0 + 1) m1 R (by simp only [List.length_cons] at hR ; omega) hmax]
    have hlast : lastMeta m1 rest = lastMeta m0 ((u1, m1) :: rest) := by
      simp only [lastMeta, List.map_cons]
      cases h : rest.map Prod.snd <;> simp [List.getLastD]
    rw [hlast]
    congr 2
    omega

/-- C1: MVCC snapshot isolation for metadata.  Starting from any state
whose ids are fresh, create an object (minting the revision `r_initial`)
and apply any number of updates.  A read at `ExactlyAt(r_initial)` — which
evaluates visibility at the point `P = r_initial.snapshot.xmax`, the tid
of the creating write — returns the initial metadata version, while a read
at `Full` consistency returns the last written version. -/
theorem mvcc_snapshot_isolation :
    ∀ (M : Type) (s0 : DBState M) (uid ty : String) (m0 : M) (ups : List (String × M)),
      (∀ o ∈ s0.objects, o.id < s0.nextObjectId) →
      (∀ h ∈ s0.metadataHistory, h.objectId < s0.nextObjectId) →
      s0.nextXid + ups.length + 1 < MAXTXID →
      get_object (apply_updates (create_object uid ty m0 s0).2.1.id ups
          (create_object uid ty m0 s0).1) (create_object uid ty m0 s0).2.1.id
        (.exactlyAt (create_object uid ty m0 s0).2.2) =
        .ok (some ⟨(create_object uid ty m0 s0).2.1.id, ty, m0⟩) ∧
      get_object (apply_updates (create_object uid ty m0 s0).2.1.id ups
          (create_object uid ty m0 s0).1) (create_object uid ty m0 s0).2.1.id
        .full =
        .ok (some ⟨(create_object uid ty m0 s0).2.1.id, ty, lastMeta m0 ups⟩) := by
  intro M s0 uid ty m0 ups hfo hfm hbound
  obtain ⟨t0, noid0, neid0, objs0, base, tr0⟩ := s0
  simp only [create_object]
  simp only at hfo hfm hbound
  have hbase : ∀ h ∈ base, h.objectId ≠ noid0 := fun h hh => by
    have := hfm h hh
    omega
  have hobjs : ∀ o ∈ objs0, o.id ≠ noid0 := fun o ho => by
    have := hfo o ho
    omega
  obtain ⟨u1, hst⟩ := apply_updates_inv noid0 t0 ty m0 ups uid (noid0 + 1) neid0
    objs0 base tr0 hbase hobjs (by omega)
  rw [show (base ++ [(⟨noid0, m0, t0, MAXTXID⟩ : MetaRow M)]) =
    base ++ chainRows noid0 t0 m0 [] from rfl]
  rw [hst]
  have ht0max : t0 < MAXTXID := by omega
  have hRmax : t0 + 1 + ups.length < MAXTXID := by omega
  constructor
  · -- read at ExactlyAt(r_initial): P = t0
    have hofind : ((objs0 ++ [(⟨noid0, ty, u1, t0, MAXTXID⟩ : ObjRow)]).find?
        (fun o => o.id == noid0 &&
          modePredicate (.exactlyAt ⟨⟨t0, t0, []⟩, some t0⟩) (t0 + 1 + ups.length)
            o.createdXid o.deletedXid)) = some ⟨noid0, ty, u1, t0, MAXTXID⟩ := by
      rw [List.find?_append,
        List.find?_eq_none.mpr (fun o ho hpo => by
          have hid : o.id = noid0 := by
            simp only [Bool.and_eq_true, beq_iff_eq] at hpo
            exact hpo.1
          exact (hobjs o ho) hid),
        List.find?_cons_of_pos _ (by
          simp [modePredicate]
          omega)]
      rfl
    simp only [get_object, hofind]
    have hfilbase : base.filter (fun h => h.objectId == noid0 &&
        modePredicate (.exactlyAt ⟨⟨t0, t0, []⟩, some t0⟩) (t0 + 1 + ups.length)
          h.createdXid h.deletedXid) = [] := by
      rw [List.filter_eq_nil_iff]
      intro h hh
      simp only [Bool.and_eq_true, beq_iff_eq, not_and]
      intro hid
      exact absurd hid (hbase h hh)
    obtain ⟨d, hfil⟩ := chainRows_filter_at_start noid0 ups t0 m0 ht0max
    have hfilchain : (chainRows noid0 t0 m0 ups).filter (fun h =>
        h.objectId == noid0 &&
          modePredicate (.exactlyAt ⟨⟨t0, t0, []⟩, some t0⟩) (t0 + 1 + ups.length)
            h.createdXid h.deletedXid) = [⟨noid0, m0, t0, d⟩] := by
      rw [show (fun (h : MetaRow M) => h.objectId == noid0 &&
          modePredicate (.exactlyAt ⟨⟨t0, t0, []⟩, some t0⟩) (t0 + 1 + ups.length)
            h.createdXid h.deletedXid) =
        (fun (h : MetaRow M) => h.objectId == noid0 &&
          (decide (h.createdXid ≤ t0) && decide (t0 < h.deletedXid))) from rfl]
      exact hfil
    simp only [List.filter_append, hfilbase, hfilchain, List.nil_append, List.head?]
  · -- read at Full: R = t0 + 1 + n
    have hofind : ((objs0 ++ [(⟨noid0, ty, u1, t0, MAXTXID⟩ : ObjRow)]).find?
        (fun o => o.id == noid0 &&
          modePredicate .full (t0 + 1 + ups.length)
            o.createdXid o.deletedXid)) = some ⟨noid0, ty, u1, t0, MAXTXID⟩ := by
      rw [List.find?_append,
        List.find?_eq_none.mpr (fun o ho hpo => by
          have hid : o.id = noid0 := by
            simp only [Bool.and_eq_true, beq_iff_eq] at hpo
            exact hpo.1
          exact (hobjs o ho) hid),
        List.find?_cons_of_pos _ (by
          simp [modePredicate]
          omega)]
      rfl
    simp only [get_object, hofind]
    have hfilbase : base.filter (fun h => h.objectId == noid0 &&
        modePredicate .full (t0 + 1 + ups.length) h.createdXid h.deletedXid) = [] := by
      rw [List.filter_eq_nil_iff]
      intro h hh
      simp only [Bool.and_eq_true, beq_iff_eq, not_and]
      intro hid
      exact absurd hid (hbase h hh)
    have hfilchain : (chainRows noid0 t0 m0 ups).filter (fun h =>
        h.objectId == noid0 &&
          modePredicate .full (t0 + 1 + ups.length) h.createdXid h.deletedXid) =
        [⟨noid0, lastMeta m0 ups, t0 + ups.length, MAXTXID⟩] := by
      rw [show (fun (h : MetaRow M) => h.objectId == noid0 &&
          modePredicate .full (t0 + 1 + ups.length) h.createdXid h.deletedXid) =
        (fun (h : MetaRow M) => h.objectId == noid0 &&
          (decide (h.createdXid ≤ (t0 + 1 + ups.length)) &&
            decide ((t0 + 1 + ups.length) < h.deletedXid))) from rfl]
      exact chainRows_filter_full noid0 ups t0 m0 (t0 + 1 + ups.length)
        (by omega) hRmax
    simp only [List.filter_append, hfilbase, hfilchain, List.nil_append, List.head?]

/-- Closed witness for `mvcc_snapshot_isolation`: from the empty state,
create with metadata `0` and update twice (`1` then `2`); the pinned read
returns `0`, the full read returns `2`. -/
theorem mvcc_snapshot_isolation_witness :
    get_object (apply_updates
        (create_object "alice" "t" 0 (⟨1, 1, 1, [], [], []⟩ : DBState Nat)).2.1.id
        [("alice", 1), ("alice", 2)]
        (create_object "alice" "t" 0 (⟨1, 1, 1, [], [], []⟩ : DBState Nat)).1)
      (create_object "alice" "t" 0 (⟨1, 1, 1, [], [], []⟩ : DBState Nat)).2.1.id
      (.exactlyAt (create_object "alice" "t" 0 (⟨1, 1, 1, [], [], []⟩ : DBState Nat)).2.2) =
      .ok (some ⟨1, "t", 0⟩) ∧
    get_object (apply_updates
        (create_object "alice" "t" 0 (⟨1, 1, 1, [], [], []⟩ : DBState Nat)).2.1.id
        [("alice", 1), ("alice", 2)]
        (create_object "alice" "t" 0 (⟨1, 1, 1, [], [], []⟩ : DBState Nat)).1)
      (create_object "alice" "t" 0 (⟨1, 1, 1, [], [], []⟩ : DBState Nat)).2.1.id
      .full = .ok (some ⟨1, "t", 2⟩) :=
  mvcc_snapshot_isolation Nat ⟨1, 1, 1, [], [], []⟩ "alice" "t" 0
    [("alice", 1), ("alice", 2)] (by simp) (by simp) (by decide)

end Ent
